import Mathlib

/-!
Verification development for the Ralph OS kernel (Rust sources under `src/`).

The definitions below are shallow embeddings of the kernel's data structures
and operations, translated directly from the Rust source files:

* `src/allocator.rs`      — the kernel-heap first-fit linked-list allocator
  (the free list of `{size, next}` headers is modelled as a Lean list of
  `(addr, size)` pairs in linked-list order; the allocation headers written
  into memory are modelled as a list of `(block_start, block_size)` entries);
* `src/program_alloc.rs`, `src/task.rs`, `src/scheduler.rs`,
  `src/executable.rs` — tasks, the scheduler, and the per-task ledger;
* `src/net/tcp.rs`       — the TCP engine (u32 sequence arithmetic is
  modelled as `Nat` reduced mod 2^32; the network send path, which in the
  source returns `bool` from `ipv4::send_packet`, is modelled as always
  succeeding, with emitted segments collected in a list);
* `src/net/packet.rs`    — the ISR/task packet-buffer rings.

Machine-integer behaviour (wrapping u32 arithmetic, saturating adds,
truncating `usize` subtraction) is made explicit with `% 2^32`, `min`, `max`
and Nat subtraction exactly where the source relies on it.
-/

namespace RalphOS

/-- Reduce to u32 range, as Rust `as u32` / `wrapping_*` do. -/
def w32 (n : Nat) : Nat := n % 2 ^ 32

/-- Rust `a.wrapping_sub(b)` on u32 values. -/
def wsub (a b : Nat) : Nat := (a + 2 ^ 32 - b % 2 ^ 32) % 2 ^ 32

/-- `seq_after` from tcp.rs: `(a.wrapping_sub(b) as i32) > 0`.
A u32 difference is positive as an i32 iff it lies in `(0, 2^31)`. -/
def seq_after (a b : Nat) : Prop := 0 < wsub a b ∧ wsub a b < 2 ^ 31

instance (a b : Nat) : Decidable (seq_after a b) := by
  unfold seq_after; infer_instance

/-! ## Kernel heap allocator (src/allocator.rs) -/

namespace Heap

/-- `ALIGNMENT` in allocator.rs. -/
def ALIGNMENT : Nat := 8

/-- `HEADER_SIZE = size_of::<AllocationHeader>()` = 16 bytes
(`{u32, u32, usize}` with repr(C) padding to 8-byte alignment). -/
def HEADER_SIZE : Nat := 16

/-- `MIN_BLOCK_SIZE = size_of::<FreeBlock>()` = 16 bytes (`{usize, ptr}`). -/
def MIN_BLOCK_SIZE : Nat := 16

/-- `align_up(addr, align)` from allocator.rs; for a power-of-two alignment
`(addr + align - 1) & !(align - 1)` equals rounding up to a multiple. -/
def align_up (addr al : Nat) : Nat := (addr + al - 1) / al * al

/-- Allocator state.  `free` is the free list in linked-list order
(`head` first); `allocs` models the `AllocationHeader`s present in heap
memory, as `(block_start, block_size)` pairs (most recent first). -/
structure HeapState where
  heap_start : Nat
  heap_end : Nat
  free : List (Nat × Nat)
  allocs : List (Nat × Nat)
deriving Repr, DecidableEq

/-- `LinkedListAllocator::init`: a single free block spanning the heap. -/
def initHeap (start size : Nat) : HeapState :=
  { heap_start := start, heap_end := start + size
    free := [(start, size)], allocs := [] }

/-- Total bytes on the free list, as walked by `get_heap_stats`. -/
def freeBytes (s : HeapState) : Nat := (s.free.map (·.2)).sum

/-- `get_heap_stats()`: `(used, free)` where `used = total - free`. -/
def get_heap_stats (s : HeapState) : Nat × Nat :=
  ((s.heap_end - s.heap_start) - freeBytes s, freeBytes s)

/-- Rounded-up block size for a user request of `n` bytes:
`align_up(HEADER_SIZE + user_size.max(1), 8).max(MIN_BLOCK_SIZE)`. -/
def total_size (n : Nat) : Nat :=
  max (align_up (HEADER_SIZE + max n 1) ALIGNMENT) MIN_BLOCK_SIZE

/-- The first-fit walk of `allocate`: returns the prefix walked past, the
first block with `total ≤ size`, and the remaining suffix. -/
def find_fit (total : Nat) : List (Nat × Nat) →
    Option (List (Nat × Nat) × (Nat × Nat) × List (Nat × Nat))
  | [] => none
  | b :: rest =>
    if total ≤ b.2 then some ([], b, rest)
    else (find_fit total rest).map (fun r => (b :: r.1, r.2.1, r.2.2))

/-- `add_free_block`: sorted-by-address insertion (the source walks until
`block_addr > new_addr` and inserts there). -/
def add_free_block : List (Nat × Nat) → Nat × Nat → List (Nat × Nat)
  | [], nb => [nb]
  | b :: rest, nb => if nb.1 < b.1 then nb :: b :: rest else b :: add_free_block rest nb

/-- One step of the `merge_free_blocks` sweep: `b` is the block the cursor
rests on; an adjacent successor is absorbed into `b` and the (grown) `b`
is re-examined against the next block before the cursor advances. -/
def merge_sweep : Nat × Nat → List (Nat × Nat) → List (Nat × Nat)
  | b, [] => [b]
  | b, c :: rest =>
    if b.1 + b.2 = c.1 then merge_sweep (b.1, b.2 + c.2) rest
    else b :: merge_sweep c rest

/-- `merge_free_blocks`: one forward sweep coalescing adjacent blocks. -/
def merge_free_blocks : List (Nat × Nat) → List (Nat × Nat)
  | [] => []
  | b :: rest => merge_sweep b rest

/-- `LinkedListAllocator::allocate` (alignment ≤ 8 is asserted by the
source and does not otherwise enter the computation).  Returns the new
state and the user pointer (`None` models the null return). -/
def allocate (s : HeapState) (n : Nat) : HeapState × Option Nat :=
  match find_fit (total_size n) s.free with
  | none => (s, none)
  | some (l1, b, l2) =>
    if MIN_BLOCK_SIZE ≤ b.2 - total_size n then
      ({ s with
          free := add_free_block (l1 ++ l2) (b.1 + total_size n, b.2 - total_size n)
          allocs := (b.1, total_size n) :: s.allocs },
        some (align_up (b.1 + HEADER_SIZE) ALIGNMENT))
    else
      ({ s with free := l1 ++ l2, allocs := (b.1, b.2) :: s.allocs },
        some (align_up (b.1 + HEADER_SIZE) ALIGNMENT))

/-- `LinkedListAllocator::deallocate`.  The source reads the header at
`ptr - HEADER_SIZE` and panics unless the magic matches; here a missing
header is `none`.  The freed block is `block_size.max(MIN_BLOCK_SIZE)`
bytes, re-inserted sorted and then coalesced. -/
def deallocate (s : HeapState) (p : Nat) : Option HeapState :=
  match s.allocs.find? (fun e => e.1 == p - HEADER_SIZE) with
  | none => none
  | some (a, sz) =>
    some { s with
      free := merge_free_blocks (add_free_block s.free (a, max sz MIN_BLOCK_SIZE))
      allocs := s.allocs.eraseP (fun e => e.1 == p - HEADER_SIZE) }

/-- A tagged block of the heap: `(addr, size, isFree)`. -/
abbrev Block := Nat × Nat × Bool

/-- `tiled c l e`: the blocks of `l`, in order, tile `[c, e)` exactly —
each block starts where the previous one ended, with no gap or overlap. -/
def tiled : Nat → List Block → Nat → Prop
  | c, [], e => c = e
  | c, b :: rest, e => b.1 = c ∧ tiled (c + b.2.1) rest e

/-- The free blocks of a tiling, in address order. -/
def freeOf (l : List Block) : List (Nat × Nat) :=
  l.filterMap (fun b => if b.2.2 then some (b.1, b.2.1) else none)

/-- The allocated blocks of a tiling, in address order. -/
def allocOf (l : List Block) : List (Nat × Nat) :=
  l.filterMap (fun b => if b.2.2 then none else some (b.1, b.2.1))

/-- A legal block size: multiple of 8 and at least `MIN_BLOCK_SIZE`. -/
def goodSize (n : Nat) : Prop := n % 8 = 0 ∧ MIN_BLOCK_SIZE ≤ n

/-- `gap a b`: block `a` ends strictly before block `b` starts.  On the
free list this is sortedness by ascending address, no overlap, AND no
two physically adjacent free blocks (coalescing completeness) at once. -/
def gap (a b : Nat × Nat) : Prop := a.1 + a.2 < b.1

/-- The C3 invariant: the heap `[heap_start, heap_end)` partitions
exactly into the allocated blocks and the free-list blocks (some tiling
`l` whose free projection IS the free list, in order, and whose
allocated projection is the header set up to permutation); every block
size is a multiple of 8 and ≥ the minimum free-block size; and the free
list is strictly sorted by address with no two adjacent free blocks. -/
def Inv (s : HeapState) : Prop :=
  s.heap_start % 8 = 0 ∧
  ∃ l : List Block,
    tiled s.heap_start l s.heap_end ∧
    (∀ b ∈ l, goodSize b.2.1) ∧
    freeOf l = s.free ∧
    (allocOf l).Perm s.allocs ∧
    s.free.Pairwise gap

/-- Allocator states reachable from `init` by any sequence of
`allocate` / `deallocate` calls.  `init` requires an 8-aligned start
and size (its `assert!`s) and a region large enough for the initial
`FreeBlock` header it writes (16 bytes — a smaller region would make
the header store itself out of bounds). -/
inductive Reachable : HeapState → Prop
  | init : ∀ start size, start % 8 = 0 → size % 8 = 0 →
      MIN_BLOCK_SIZE ≤ size → Reachable (initHeap start size)
  | alloc : ∀ s n, Reachable s → Reachable (allocate s n).1
  | dealloc : ∀ s p s', Reachable s → deallocate s p = some s' →
      Reachable s'

end Heap

/-! ## Program region (src/program_alloc.rs) -/

namespace Prog

/-- `PROGRAM_REGION_START` (4 MiB). -/
def PROGRAM_REGION_START : Nat := 0x400000

/-- `PROGRAM_REGION_END` (16 MiB). -/
def PROGRAM_REGION_END : Nat := 0x1000000

end Prog

/-! ## Tasks, scheduler, and the loader ledger
(src/task.rs, src/scheduler.rs, src/executable.rs) -/

namespace Sched

/-- `STACK_SIZE` from task.rs (16 KiB). -/
def STACK_SIZE : Nat := 16 * 1024

/-- `Task::new` allocates the task stack with `vec![0u8; STACK_SIZE]`,
i.e. a `Layout(size = STACK_SIZE, align = 1)` request served by the
global allocator — the kernel-heap `LinkedListAllocator`.  Returns the
new heap state and the stack base pointer. -/
def task_new_stack (s : Heap.HeapState) : Heap.HeapState × Option Nat :=
  Heap.allocate s STACK_SIZE

/-- `TaskState` from task.rs. -/
inductive TaskState
  | Ready
  | Running
  | Sleeping
  | Finished
deriving DecidableEq, Repr

/-- A task as the scheduler sees it (context and stack contents are not
needed by the claims; `wakeAt` is `wake_at`). -/
structure KTask where
  id : Nat
  state : TaskState
  wakeAt : Nat
deriving DecidableEq, Repr

/-- `TaskAllocations` from executable.rs: the per-task ledger entry
(`(addr, size)` extents; the program name does not matter here). -/
structure LedgerEntry where
  stack : Nat × Nat
  program : Option (Nat × Nat)
  heapBlocks : List (Nat × Nat)
deriving DecidableEq, Repr

/-- Combined scheduler + loader-registry state: the scheduler's task
vector and `current` index, and the registry's `task_allocations` map
(a `BTreeMap<TaskId, TaskAllocations>`, modelled as an assoc list). -/
structure Kernel where
  tasks : List KTask
  current : Nat
  ledger : List (Nat × LedgerEntry)
deriving DecidableEq, Repr

/-- `wake_sleeping_tasks`: promote Sleeping tasks with `wake_at ≤ now`. -/
def wake_sleeping_tasks (now : Nat) (k : Kernel) : Kernel :=
  { k with tasks := k.tasks.map (fun t =>
      if t.state = TaskState.Sleeping ∧ t.wakeAt ≤ now then
        { t with state := TaskState.Ready }
      else t) }

/-- `reap_finished_tasks`: drop Finished tasks and adjust `current`
exactly as the source does. -/
def reap_finished_tasks (k : Kernel) : Kernel :=
  let finishedBefore :=
    ((k.tasks.take k.current).filter (fun t => t.state == TaskState.Finished)).length
  let tasks' := k.tasks.filter (fun t => ¬ t.state == TaskState.Finished)
  let cur1 := if finishedBefore ≤ k.current then k.current - finishedBefore else k.current
  let cur2 := if tasks'.length ≤ cur1 ∧ tasks' ≠ [] then 0 else cur1
  { k with tasks := tasks', current := cur2 }

/-- The state mutation `Scheduler::schedule` performs before it context
switches: poll the timer, wake sleeping tasks, reap finished tasks.
(The ready-task search and `switch_context` change no scheduler state
other than `current`/`state` of the switched-to task.)  Note that it
never touches the loader's ledger. -/
def schedule_before_switch (now : Nat) (k : Kernel) : Kernel :=
  let k1 := wake_sleeping_tasks now k
  if k1.tasks.any (fun t => t.state == TaskState.Finished) then
    reap_finished_tasks k1
  else k1

/-- `scheduler::exit_task`: mark the current task `Finished`, then invoke
scheduling.  (It performs no loader call.) -/
def exit_task (now : Nat) (k : Kernel) : Kernel :=
  let k' :=
    match k.tasks.get? k.current with
    | some t =>
      { k with tasks := k.tasks.set k.current { t with state := TaskState.Finished } }
    | none => k
  schedule_before_switch now k'

/-- `executable::unload_task`: remove the task's ledger entry and free
its extents in source order — every heap block first, then the program
image (if any), then the stack.  Returns the new state and the list of
freed `(addr, size)` extents in the order they are deallocated. -/
def unload_task (k : Kernel) (id : Nat) : Kernel × List (Nat × Nat) :=
  match k.ledger.find? (fun e => e.1 == id) with
  | none => (k, [])
  | some (_, a) =>
    ({ k with ledger := k.ledger.eraseP (fun e => e.1 == id) },
      a.heapBlocks ++ a.program.toList ++ [a.stack])

end Sched

/-! ## Packet buffer pool (src/net/packet.rs) -/

namespace Pool

/-- `RX_BUFFER_COUNT`. -/
def RX_BUFFER_COUNT : Nat := 16

/-- `TX_BUFFER_COUNT`. -/
def TX_BUFFER_COUNT : Nat := 8

/-- The pool's atomic indices and statistics (buffer bytes and the
per-buffer `flags` are not needed by the claims; the ring indices are
authoritative in the source as well). -/
structure PacketPool where
  rx_head : Nat
  rx_tail : Nat
  tx_head : Nat
  tx_tail : Nat
  rx_count : Nat
  tx_count : Nat
  rx_dropped : Nat
deriving DecidableEq, Repr

/-- `packet::init()`: all indices and counters zeroed. -/
def poolInit : PacketPool :=
  { rx_head := 0, rx_tail := 0, tx_head := 0, tx_tail := 0
    rx_count := 0, tx_count := 0, rx_dropped := 0 }

/-- `get_rx_buffer_for_write` (ISR side): `None` + `rx_dropped += 1` when
`(head + 1) % RX_BUFFER_COUNT == tail`, else the buffer index at head. -/
def get_rx_buffer_for_write (p : PacketPool) : Option Nat × PacketPool :=
  if (p.rx_head + 1) % RX_BUFFER_COUNT = p.rx_tail then
    (none, { p with rx_dropped := p.rx_dropped + 1 })
  else
    (some p.rx_head, p)

/-- `rx_buffer_ready` (ISR side): publish the buffer at head. -/
def rx_buffer_ready (p : PacketPool) : PacketPool :=
  { p with rx_head := (p.rx_head + 1) % RX_BUFFER_COUNT
           rx_count := p.rx_count + 1 }

/-- `release_rx_buffer` (task side): consume the buffer at tail. -/
def release_rx_buffer (p : PacketPool) : PacketPool :=
  { p with rx_tail := (p.rx_tail + 1) % RX_BUFFER_COUNT }

/-- `get_tx_buffer` (task side): `None` when
`(head + 1) % TX_BUFFER_COUNT == tail`. -/
def get_tx_buffer (p : PacketPool) : Option Nat :=
  if (p.tx_head + 1) % TX_BUFFER_COUNT = p.tx_tail then none
  else some p.tx_head

/-- Number of published-but-unreleased RX buffers. -/
def rx_pending (p : PacketPool) : Nat :=
  (p.rx_head + RX_BUFFER_COUNT - p.rx_tail) % RX_BUFFER_COUNT

/-- Number of queued-but-uncompleted TX buffers. -/
def tx_pending (p : PacketPool) : Nat :=
  (p.tx_head + TX_BUFFER_COUNT - p.tx_tail) % TX_BUFFER_COUNT

/-- Indices in range (maintained by every operation). -/
def WF (p : PacketPool) : Prop :=
  p.rx_head < RX_BUFFER_COUNT ∧ p.rx_tail < RX_BUFFER_COUNT ∧
  p.tx_head < TX_BUFFER_COUNT ∧ p.tx_tail < TX_BUFFER_COUNT

instance (p : PacketPool) : Decidable (WF p) := by
  unfold WF; infer_instance

/-- The ISR receive path as driven by the NE2000 handler: try to get a
buffer and, only on success, write the frame and publish it. -/
def isr_receive (p : PacketPool) : PacketPool :=
  match get_rx_buffer_for_write p with
  | (none, p') => p'
  | (some _, p') => rx_buffer_ready p'

end Pool

/-! ## TCP engine (src/net/tcp.rs)

Addressing (IPs/ports) is elided: it selects the TCB but never enters
the sequence/window/timer logic the claims are about.  `send_segment`'s
transport (`ipv4::send_packet`) is modelled as always succeeding;
emitted segments are collected in a list. -/

namespace Tcp

/-- `MSS`. -/
def MSS : Nat := 1460

/-- `RX_BUFFER_SIZE` (also `TX_BUFFER_SIZE`). -/
def RX_BUFFER_SIZE : Nat := 2048

/-- `TX_BUFFER_SIZE`. -/
def TX_BUFFER_SIZE : Nat := 2048

/-- `OOO_BUFFER_SIZE`. -/
def OOO_BUFFER_SIZE : Nat := 4

/-- `OOO_DATA_SIZE`. -/
def OOO_DATA_SIZE : Nat := 512

/-- `INITIAL_RTO` (ticks). -/
def INITIAL_RTO : Nat := 20

/-- `MIN_RTO`. -/
def MIN_RTO : Nat := 20

/-- `MAX_RTO`. -/
def MAX_RTO : Nat := 6000

/-- `TIME_WAIT_TIMEOUT`. -/
def TIME_WAIT_TIMEOUT : Nat := 3000

/-- `MAX_CONNECTIONS`. -/
def MAX_CONNECTIONS : Nat := 4

/-- u32::MAX, the ceiling of `saturating_add`. -/
def UINT32_MAX : Nat := 2 ^ 32 - 1

/-- TCP flag bits. -/
def FLAG_FIN : Nat := 0x01

/-- SYN flag bit. -/
def FLAG_SYN : Nat := 0x02

/-- RST flag bit. -/
def FLAG_RST : Nat := 0x04

/-- PSH flag bit. -/
def FLAG_PSH : Nat := 0x08

/-- ACK flag bit. -/
def FLAG_ACK : Nat := 0x10

/-- `TcpHeader::is_fin`: `(flags & FLAG_FIN) != 0`. -/
def is_fin (flags : Nat) : Bool := Nat.land flags FLAG_FIN != 0

/-- `TcpHeader::is_syn`. -/
def is_syn (flags : Nat) : Bool := Nat.land flags FLAG_SYN != 0

/-- `TcpHeader::is_rst`. -/
def is_rst (flags : Nat) : Bool := Nat.land flags FLAG_RST != 0

/-- `TcpHeader::is_ack`. -/
def is_ack (flags : Nat) : Bool := Nat.land flags FLAG_ACK != 0

/-- `TcpState`. -/
inductive TcpState
  | Closed
  | Listen
  | SynSent
  | SynReceived
  | Established
  | FinWait1
  | FinWait2
  | CloseWait
  | Closing
  | LastAck
  | TimeWait
deriving DecidableEq, Repr

/-- A TCP segment as seen on the wire: the header fields the engine
reads/writes plus the payload (bytes as `Nat`s). -/
structure Segment where
  seq : Nat
  ack : Nat
  flags : Nat
  window : Nat
  payload : List Nat
deriving DecidableEq, Repr

/-- `TcpControlBlock` (addressing elided).  The rx/tx `RingBuffer`s are
modelled as the byte lists they hold (write appends at most the free
space, read removes from the front — exactly the ring's semantics);
`ooo_segments` holds `some (seq, data)` for `valid` slots, where `data`
is the stored prefix (`len = min(len, OOO_DATA_SIZE)` bytes). -/
structure Tcb where
  state : TcpState
  snd_una : Nat
  snd_nxt : Nat
  snd_wnd : Nat
  iss : Nat
  rcv_nxt : Nat
  rcv_wnd : Nat
  irs : Nat
  rto : Nat
  srtt : Nat
  rttvar : Nat
  last_send_time : Nat
  retransmit_timer : Nat
  retransmit_count : Nat
  cwnd : Nat
  ssthresh : Nat
  dup_ack_count : Nat
  last_ack : Nat
  ooo_segments : List (Option (Nat × List Nat))
  rx_buffer : List Nat
  tx_buffer : List Nat
  time_wait_timer : Nat
  in_use : Bool
  has_data : Bool
  remote_closed : Bool
deriving DecidableEq, Repr

/-- `TcpControlBlock::new()` (also the result of `reset()`). -/
def TcbNew : Tcb :=
  { state := TcpState.Closed
    snd_una := 0, snd_nxt := 0, snd_wnd := 0, iss := 0
    rcv_nxt := 0, rcv_wnd := RX_BUFFER_SIZE, irs := 0
    rto := INITIAL_RTO, srtt := 0, rttvar := 0
    last_send_time := 0, retransmit_timer := 0, retransmit_count := 0
    cwnd := MSS, ssthresh := 65535, dup_ack_count := 0, last_ack := 0
    ooo_segments := [none, none, none, none]
    rx_buffer := [], tx_buffer := []
    time_wait_timer := 0
    in_use := false, has_data := false, remote_closed := false }

/-- `alloc_connection` on a free slot: `reset()` then `in_use = true`. -/
def socket_new : Tcb := { TcbNew with in_use := true }

/-- `update_rcv_wnd`: the rx ring's free space. -/
def update_rcv_wnd (c : Tcb) : Tcb :=
  { c with rcv_wnd := RX_BUFFER_SIZE - c.rx_buffer.length }

/-- `generate_iss()`:
`((ticks as u32).wrapping_mul(0x41C64E6D)).wrapping_add(0x3039)`. -/
def generate_iss (ticks : Nat) : Nat :=
  w32 (w32 (w32 ticks * 0x41C64E6D) + 0x3039)

/-- `send_segment`: builds the segment from the connection's current
`snd_nxt`, `rcv_nxt` and `rcv_wnd`. -/
def mk_segment (c : Tcb) (flags : Nat) (payload : List Nat) : Segment :=
  { seq := c.snd_nxt, ack := c.rcv_nxt, flags := flags
    window := c.rcv_wnd, payload := payload }

/-- `update_rtt` (RFC 6298 formulas; `rttvar` uses the old `srtt`). -/
def update_rtt (now : Nat) (c : Tcb) : Tcb :=
  let measured := now - c.last_send_time
  let sr :=
    if c.srtt = 0 then (measured, measured / 2)
    else ((7 * c.srtt + measured) / 8,
      (3 * c.rttvar +
        (if c.srtt < measured then measured - c.srtt else c.srtt - measured)) / 4)
  { c with srtt := sr.1, rttvar := sr.2
           rto := min (max (sr.1 + 4 * sr.2) MIN_RTO) MAX_RTO }

/-- `retransmit`: peek the earliest `min(pending, MSS)` unacked bytes of
the TX buffer and send them — note `send_segment` stamps the segment
with the CURRENT `snd_nxt`, not with the sequence number the peeked
bytes originally went out under. -/
def retransmit (now : Nat) (c : Tcb) : Tcb × List Segment :=
  if c.tx_buffer.length = 0 then (c, [])
  else
    let toSend := min c.tx_buffer.length MSS
    let seg := mk_segment c (Nat.lor FLAG_ACK FLAG_PSH) (c.tx_buffer.take toSend)
    ({ c with retransmit_timer := now + c.rto
              retransmit_count := c.retransmit_count + 1 }, [seg])

/-- `process_ack`. -/
def process_ack (now : Nat) (c : Tcb) (ack : Nat) : Tcb × List Segment :=
  if seq_after ack c.snd_una ∧ ¬ seq_after ack c.snd_nxt then
    let bytes_acked := wsub ack c.snd_una
    let c1 := { c with snd_una := ack
                       tx_buffer := c.tx_buffer.drop (min bytes_acked c.tx_buffer.length) }
    let c2 := update_rtt now c1
    let c3 :=
      if c2.cwnd < c2.ssthresh then
        { c2 with cwnd := min (c2.cwnd + bytes_acked) UINT32_MAX }
      else
        { c2 with cwnd := min (c2.cwnd + MSS * MSS / c2.cwnd) UINT32_MAX }
    let c4 := { c3 with dup_ack_count := 0, last_ack := ack }
    (if c4.snd_una ≠ c4.snd_nxt then
      { c4 with retransmit_timer := now + c4.rto } else c4, [])
  else if ack = c.last_ack then
    let c1 := { c with dup_ack_count := c.dup_ack_count + 1 }
    if c1.dup_ack_count = 3 then
      let c2 := { c1 with ssthresh := max (c1.cwnd / 2) (2 * MSS) }
      retransmit now { c2 with cwnd := c2.ssthresh + 3 * MSS }
    else if 3 < c1.dup_ack_count then
      ({ c1 with cwnd := min (c1.cwnd + MSS) UINT32_MAX }, [])
    else (c1, [])
  else (c, [])

/-- The first-valid-slot-matching-`target` extraction of the
`deliver_ooo_segments` loop body: returns the segment and the slot array
with that slot invalidated. -/
def ooo_extract : List (Option (Nat × List Nat)) → Nat →
    Option ((Nat × List Nat) × List (Option (Nat × List Nat)))
  | [], _ => none
  | none :: rest, t => (ooo_extract rest t).map (fun r => (r.1, none :: r.2))
  | some sg :: rest, t =>
    if sg.1 = t then some (sg, none :: rest)
    else (ooo_extract rest t).map (fun r => (r.1, some sg :: r.2))

/-- Number of `valid` OOO slots. -/
def count_valid (l : List (Option (Nat × List Nat))) : Nat :=
  (l.filterMap id).length

/-- The `deliver_ooo_segments` loop with explicit fuel; each round that
delivers clears one valid slot. -/
def deliver_ooo_go : Nat → Tcb → Tcb
  | 0, c => c
  | fuel + 1, c =>
    match ooo_extract c.ooo_segments c.rcv_nxt with
    | none => c
    | some (sg, ooo') =>
      let written := min sg.2.length (RX_BUFFER_SIZE - c.rx_buffer.length)
      deliver_ooo_go fuel
        { c with rx_buffer := c.rx_buffer ++ sg.2.take written
                 rcv_nxt := w32 (c.rcv_nxt + written)
                 ooo_segments := ooo' }

/-- `deliver_ooo_segments`: loop until no valid slot matches `rcv_nxt`;
`count_valid + 1` rounds always suffice because each delivery
invalidates a slot. -/
def deliver_ooo_segments (c : Tcb) : Tcb :=
  deliver_ooo_go (count_valid c.ooo_segments + 1) c

/-- First-empty-slot insertion of `buffer_ooo_segment`; `none` when all
slots are valid (segment silently dropped). -/
def ooo_insert : List (Option (Nat × List Nat)) → Nat × List Nat →
    Option (List (Option (Nat × List Nat)))
  | [], _ => none
  | none :: rest, sg => some (some sg :: rest)
  | some b :: rest, sg => (ooo_insert rest sg).map (fun r => some b :: r)

/-- `buffer_ooo_segment`: store `(seq, first OOO_DATA_SIZE bytes)` in the
first empty slot, if any. -/
def buffer_ooo_segment (c : Tcb) (seq : Nat) (data : List Nat) : Tcb :=
  match ooo_insert c.ooo_segments (seq, data.take OOO_DATA_SIZE) with
  | some ooo' => { c with ooo_segments := ooo' }
  | none => c

/-- `process_data`. -/
def process_data (c : Tcb) (segSeq : Nat) (payload : List Nat) :
    Tcb × List Segment :=
  if payload.isEmpty then (c, [])
  else if segSeq = c.rcv_nxt then
    let written := min payload.length (RX_BUFFER_SIZE - c.rx_buffer.length)
    let c1 := { c with rx_buffer := c.rx_buffer ++ payload.take written
                       rcv_nxt := w32 (c.rcv_nxt + written)
                       has_data := true }
    let c2 := update_rcv_wnd c1
    let c3 := deliver_ooo_segments c2
    (c3, [mk_segment c3 FLAG_ACK []])
  else if seq_after segSeq c.rcv_nxt then
    let c1 := buffer_ooo_segment c segSeq payload
    (c1, [mk_segment c1 FLAG_ACK []])
  else (c, [])

/-- `process_segment` (per-state dispatch after the RST check). -/
def process_segment (now : Nat) (c : Tcb) (sg : Segment) :
    Tcb × List Segment :=
  if is_rst sg.flags then (TcbNew, [])
  else match c.state with
  | TcpState.Closed => (c, [])
  | TcpState.Listen =>
    if is_syn sg.flags ∧ ¬ is_ack sg.flags then
      let c1 := { c with irs := sg.seq, rcv_nxt := w32 (sg.seq + 1)
                         iss := generate_iss now }
      let c2 := { c1 with snd_nxt := c1.iss, snd_una := c1.iss
                          snd_wnd := sg.window }
      let out := mk_segment c2 (Nat.lor FLAG_SYN FLAG_ACK) []
      ({ c2 with snd_nxt := w32 (c2.snd_nxt + 1), state := TcpState.SynReceived
                 last_send_time := now, retransmit_timer := now + c2.rto },
        [out])
    else (c, [])
  | TcpState.SynSent =>
    if is_syn sg.flags ∧ is_ack sg.flags then
      if sg.ack = c.snd_nxt then
        let c1 := { c with irs := sg.seq, rcv_nxt := w32 (sg.seq + 1)
                           snd_una := sg.ack, snd_wnd := sg.window }
        let out := mk_segment c1 FLAG_ACK []
        (update_rtt now { c1 with state := TcpState.Established }, [out])
      else (c, [])
    else if is_syn sg.flags then
      let c1 := { c with irs := sg.seq, rcv_nxt := w32 (sg.seq + 1) }
      let out := mk_segment c1 (Nat.lor FLAG_SYN FLAG_ACK) []
      ({ c1 with state := TcpState.SynReceived }, [out])
    else (c, [])
  | TcpState.SynReceived =>
    if is_ack sg.flags ∧ sg.ack = c.snd_nxt then
      let c1 := update_rtt now
        { c with snd_una := sg.ack, snd_wnd := sg.window
                 state := TcpState.Established }
      process_data c1 sg.seq sg.payload
    else (c, [])
  | TcpState.Established =>
    let r1 := if is_ack sg.flags then process_ack now c sg.ack else (c, [])
    let r2 := process_data r1.1 sg.seq sg.payload
    if is_fin sg.flags then
      let c3 := { r2.1 with rcv_nxt := w32 (r2.1.rcv_nxt + 1)
                            remote_closed := true }
      let out := mk_segment c3 FLAG_ACK []
      ({ c3 with state := TcpState.CloseWait }, r1.2 ++ r2.2 ++ [out])
    else (r2.1, r1.2 ++ r2.2)
  | TcpState.FinWait1 =>
    if is_ack sg.flags ∧ sg.ack = c.snd_nxt then
      let c1 := { c with snd_una := sg.ack }
      if is_fin sg.flags then
        let c2 := { c1 with rcv_nxt := w32 (c1.rcv_nxt + 1) }
        let out := mk_segment c2 FLAG_ACK []
        ({ c2 with state := TcpState.TimeWait
                   time_wait_timer := now + TIME_WAIT_TIMEOUT }, [out])
      else ({ c1 with state := TcpState.FinWait2 }, [])
    else if is_fin sg.flags then
      let c1 := { c with rcv_nxt := w32 (c.rcv_nxt + 1) }
      let out := mk_segment c1 FLAG_ACK []
      ({ c1 with state := TcpState.Closing }, [out])
    else (c, [])
  | TcpState.FinWait2 =>
    if is_fin sg.flags then
      let c1 := { c with rcv_nxt := w32 (c.rcv_nxt + 1) }
      let out := mk_segment c1 FLAG_ACK []
      ({ c1 with state := TcpState.TimeWait
                 time_wait_timer := now + TIME_WAIT_TIMEOUT }, [out])
    else (c, [])
  | TcpState.CloseWait =>
    if is_ack sg.flags then process_ack now c sg.ack else (c, [])
  | TcpState.Closing =>
    if is_ack sg.flags ∧ sg.ack = c.snd_nxt then
      ({ c with state := TcpState.TimeWait
                time_wait_timer := now + TIME_WAIT_TIMEOUT }, [])
    else (c, [])
  | TcpState.LastAck =>
    if is_ack sg.flags ∧ sg.ack = c.snd_nxt then (TcbNew, [])
    else (c, [])
  | TcpState.TimeWait => (c, [])

/-- `send_pending_data`. -/
def send_pending_data (now : Nat) (c : Tcb) : Tcb × List Segment :=
  if c.tx_buffer.length = 0 then (c, [])
  else
    let flight := wsub c.snd_nxt c.snd_una
    let window := min c.snd_wnd c.cwnd
    let can_send := window - flight
    if can_send = 0 then (c, [])
    else
      let toSend := min (min c.tx_buffer.length can_send) MSS
      let out := mk_segment c (Nat.lor FLAG_ACK FLAG_PSH) (c.tx_buffer.take toSend)
      ({ c with snd_nxt := w32 (c.snd_nxt + toSend)
                last_send_time := now
                retransmit_timer :=
                  if c.retransmit_timer = 0 then now + c.rto
                  else c.retransmit_timer },
        [out])

/-- `process_timers` specialised to one connection (the source loops this
body over the table).  On RTO expiry with fewer than 5 retries: double
the RTO, set `ssthresh = max(cwnd/2, 2*MSS)`, reset `cwnd = MSS`, and
retransmit; at 5 or more retries, reset the connection. -/
def process_timers_conn (now : Nat) (c : Tcb) : Tcb × List Segment :=
  if ¬ c.in_use then (c, [])
  else if c.state = TcpState.TimeWait then
    (if c.time_wait_timer ≤ now then TcbNew else c, [])
  else
    let r1 :=
      if 0 < c.retransmit_timer ∧ c.retransmit_timer ≤ now then
        if 5 ≤ c.retransmit_count then (TcbNew, [])
        else
          retransmit now
            { c with rto := min (c.rto * 2) MAX_RTO
                     ssthresh := max (c.cwnd / 2) (2 * MSS)
                     cwnd := MSS }
      else (c, [])
    let r2 :=
      if r1.1.state = TcpState.Established then send_pending_data now r1.1
      else (r1.1, [])
    (r2.1, r1.2 ++ r2.2)

/-- `tcp::connect` (active open).  `local_ip/port`, `remote_ip/port` are
elided; the SYN is always transmitted. -/
def connect (now : Nat) (c : Tcb) : Tcb × List Segment :=
  if ¬ c.in_use then (c, [])
  else if c.state ≠ TcpState.Closed then (c, [])
  else
    let c1 := { c with iss := generate_iss now }
    let c2 := { c1 with snd_nxt := c1.iss, snd_una := c1.iss }
    let out := mk_segment c2 FLAG_SYN []
    ({ c2 with snd_nxt := w32 (c2.snd_nxt + 1), state := TcpState.SynSent
               last_send_time := now, retransmit_timer := now + c2.rto },
      [out])

/-- `tcp::send` (API write): `-1` for invalid/closed sockets, otherwise
buffer as much as fits and return the byte count. -/
def tcp_send (c : Tcb) (data : List Nat) : Int × Tcb :=
  if ¬ c.in_use then (-1, c)
  else if c.state ≠ TcpState.Established ∧ c.state ≠ TcpState.CloseWait then
    (-1, c)
  else
    let n := min data.length (TX_BUFFER_SIZE - c.tx_buffer.length)
    ((n : Int), { c with tx_buffer := c.tx_buffer ++ data.take n })

/-- `tcp::recv` (API read): returns `(code, bytes read, new TCB)`. -/
def recv (c : Tcb) (bufLen : Nat) : Int × List Nat × Tcb :=
  if ¬ c.in_use then (-1, [], c)
  else if c.state = TcpState.Closed then (-1, [], c)
  else
    let n := min bufLen c.rx_buffer.length
    let out := c.rx_buffer.take n
    let c1 := update_rcv_wnd { c with rx_buffer := c.rx_buffer.drop n }
    if 0 < n then ((n : Int), out, c1)
    else if c.remote_closed then (-1, out, c1)
    else (0, out, c1)

/-- `tcp::get_state` over the 4-slot connection table. -/
def get_state (conns : List Tcb) (sock : Nat) : TcpState :=
  if MAX_CONNECTIONS ≤ sock then TcpState.Closed
  else match conns.get? sock with
    | none => TcpState.Closed
    | some c => if c.in_use then c.state else TcpState.Closed

/-- `api_net_status` from src/api.rs. -/
def api_net_status (conns : List Tcb) (sock : Int) : Int :=
  if sock < 0 then -1
  else match get_state conns sock.toNat with
    | TcpState.SynSent => 0
    | TcpState.SynReceived => 0
    | TcpState.Established => 1
    | TcpState.Closed => 2
    | TcpState.FinWait1 => 2
    | TcpState.FinWait2 => 2
    | TcpState.CloseWait => 2
    | TcpState.Closing => 2
    | TcpState.LastAck => 2
    | TcpState.TimeWait => 2
    | TcpState.Listen => 0

end Tcp

end RalphOS

/-! # Proofs -/

namespace RalphOS

namespace Heap

/-! ### Basic allocator lemmas -/

theorem align_up_eq_self {x : Nat} (h : x % 8 = 0) : align_up x 8 = x := by
  unfold align_up; omega

theorem align_up_mod8 (x : Nat) : align_up x 8 % 8 = 0 := by
  unfold align_up; omega

theorem le_align_up (x : Nat) : x ≤ align_up x 8 := by
  unfold align_up; omega

theorem min_block_le_total_size (n : Nat) : MIN_BLOCK_SIZE ≤ total_size n := by
  unfold total_size MIN_BLOCK_SIZE; omega

theorem total_size_mod8 (n : Nat) : total_size n % 8 = 0 := by
  unfold total_size MIN_BLOCK_SIZE ALIGNMENT HEADER_SIZE
  have h := align_up_mod8 (HEADER_SIZE + max n 1)
  unfold HEADER_SIZE at h; omega

theorem find_fit_eq {t : Nat} :
    ∀ {l l1 l2 : List (Nat × Nat)} {b : Nat × Nat},
      find_fit t l = some (l1, b, l2) → l = l1 ++ b :: l2 ∧ t ≤ b.2 := by
  intro l
  induction l with
  | nil => intro _ _ _ h; simp [find_fit] at h
  | cons x rest ih =>
    intro l1 l2 b h
    rw [find_fit] at h
    by_cases hx : t ≤ x.2
    · rw [if_pos hx] at h
      injection h with h'
      cases h'
      exact ⟨rfl, hx⟩
    · rw [if_neg hx] at h
      rcases hrec : find_fit t rest with _ | ⟨m1, m2, m3⟩
      · rw [hrec] at h; simp at h
      · rw [hrec] at h
        simp only [Option.map_some'] at h
        injection h with h'
        obtain ⟨he, ht⟩ := ih hrec
        cases h'
        exact ⟨by rw [he]; simp, ht⟩

theorem sum_add_free_block (l : List (Nat × Nat)) (nb : Nat × Nat) :
    ((add_free_block l nb).map (·.2)).sum = nb.2 + (l.map (·.2)).sum := by
  induction l with
  | nil => simp [add_free_block]
  | cons b rest ih =>
    by_cases h : nb.1 < b.1
    · simp [add_free_block, h]
    · simp [add_free_block, h, ih]; omega

theorem sum_merge_sweep (l : List (Nat × Nat)) :
    ∀ b : Nat × Nat, ((merge_sweep b l).map (·.2)).sum = b.2 + (l.map (·.2)).sum := by
  induction l with
  | nil => intro b; simp [merge_sweep]
  | cons c rest ih =>
    intro b
    by_cases h : b.1 + b.2 = c.1
    · rw [merge_sweep, if_pos h, ih]
      simp; omega
    · rw [merge_sweep, if_neg h]
      simp [ih]

theorem sum_merge_free_blocks (l : List (Nat × Nat)) :
    ((merge_free_blocks l).map (·.2)).sum = (l.map (·.2)).sum := by
  cases l with
  | nil => simp [merge_free_blocks]
  | cons b rest => rw [merge_free_blocks, sum_merge_sweep]; simp

/-- General heap-stats round trip: a successful `allocate` followed by
`deallocate` of the returned pointer restores `get_heap_stats` exactly.
The hypothesis that free-block addresses are 8-aligned is the allocator's
own `debug_assert!` and holds in every reachable state. -/
theorem alloc_dealloc_stats (s : HeapState) (n p : Nat)
    (h8 : ∀ b ∈ s.free, b.1 % 8 = 0)
    (hp : (allocate s n).2 = some p) :
    (deallocate (allocate s n).1 p).map get_heap_stats =
      some (get_heap_stats s) := by
  unfold allocate at hp ⊢
  rcases hf : find_fit (total_size n) s.free with _ | ⟨l1, b, l2⟩
  · rw [hf] at hp; simp at hp
  · rw [hf] at hp
    obtain ⟨hsplit, hfit⟩ := find_fit_eq hf
    have hb : b ∈ s.free := by rw [hsplit]; simp
    have hb8 : b.1 % 8 = 0 := h8 b hb
    have hau : align_up (b.1 + HEADER_SIZE) ALIGNMENT = b.1 + HEADER_SIZE := by
      unfold ALIGNMENT
      exact align_up_eq_self (by unfold HEADER_SIZE; omega)
    by_cases hc : MIN_BLOCK_SIZE ≤ b.2 - total_size n
    · simp only [if_pos hc, hau] at hp
      have hpv : p = b.1 + HEADER_SIZE := by simpa using hp.symm
      have hph : p - HEADER_SIZE = b.1 := by unfold HEADER_SIZE at hpv ⊢; omega
      simp only [if_pos hc]
      have hmax : max (total_size n) MIN_BLOCK_SIZE = total_size n :=
        Nat.max_eq_left (min_block_le_total_size n)
      simp only [deallocate, hph, List.find?, beq_self_eq_true, List.eraseP_cons,
        Option.map_some']
      unfold get_heap_stats freeBytes
      simp only [hmax, sum_merge_free_blocks, sum_add_free_block, Option.some.injEq]
      rw [hsplit]
      simp
      constructor <;> omega
    · simp only [if_neg hc, hau] at hp
      have hpv : p = b.1 + HEADER_SIZE := by simpa using hp.symm
      have hph : p - HEADER_SIZE = b.1 := by unfold HEADER_SIZE at hpv ⊢; omega
      simp only [if_neg hc]
      have hmin : MIN_BLOCK_SIZE ≤ b.2 := le_trans (min_block_le_total_size n) hfit
      have hmax : max b.2 MIN_BLOCK_SIZE = b.2 := Nat.max_eq_left hmin
      simp only [deallocate, hph, List.find?, beq_self_eq_true, List.eraseP_cons,
        Option.map_some']
      unfold get_heap_stats freeBytes
      simp only [hmax, sum_merge_free_blocks, sum_add_free_block, Option.some.injEq]
      rw [hsplit]
      simp
      constructor <;> omega

/-- A successful `allocate` hands out a pointer just past the header of
some sufficiently large free-list block. -/
theorem allocate_ptr (s : HeapState) (n p : Nat)
    (hp : (allocate s n).2 = some p) :
    ∃ b ∈ s.free, total_size n ≤ b.2 ∧
      p = align_up (b.1 + HEADER_SIZE) ALIGNMENT := by
  unfold allocate at hp
  rcases hf : find_fit (total_size n) s.free with _ | ⟨l1, b, l2⟩
  · rw [hf] at hp; simp at hp
  · rw [hf] at hp
    obtain ⟨hsplit, hfit⟩ := find_fit_eq hf
    have hb : b ∈ s.free := by rw [hsplit]; simp
    refine ⟨b, hb, hfit, ?_⟩
    by_cases hc : MIN_BLOCK_SIZE ≤ b.2 - total_size n
    · simp only [if_pos hc] at hp
      simpa using hp.symm
    · simp only [if_neg hc] at hp
      simpa using hp.symm

/-! ### Tiling lemmas for the allocator invariant (C3) -/

theorem tiled_le : ∀ (l : List Block) (c e : Nat), tiled c l e → c ≤ e := by
  intro l
  induction l with
  | nil => intro c e h; exact Nat.le_of_eq h
  | cons b rest ih =>
    intro c e h
    have := ih (c + b.2.1) e h.2
    omega

theorem tiled_append :
    ∀ (X : List Block) (c e : Nat) (Y : List Block),
      tiled c (X ++ Y) e ↔ ∃ m, tiled c X m ∧ tiled m Y e := by
  intro X
  induction X with
  | nil =>
    intro c e Y
    constructor
    · intro h; exact ⟨c, rfl, by simpa using h⟩
    · intro ⟨m, hm, hy⟩
      have : c = m := hm
      subst this
      simpa using hy
  | cons b X ih =>
    intro c e Y
    constructor
    · intro h
      obtain ⟨hb, ht⟩ := h
      obtain ⟨m, h1, h2⟩ := (ih _ _ _).mp ht
      exact ⟨m, ⟨hb, h1⟩, h2⟩
    · intro ⟨m, ⟨hb, h1⟩, h2⟩
      exact ⟨hb, (ih _ _ _).mpr ⟨m, h1, h2⟩⟩

theorem tiled_mem_bounds :
    ∀ (l : List Block) (c e : Nat), tiled c l e →
      ∀ b ∈ l, c ≤ b.1 ∧ b.1 + b.2.1 ≤ e := by
  intro l
  induction l with
  | nil => intro c e _ b hb; simp at hb
  | cons x rest ih =>
    intro c e h b hb
    obtain ⟨hx, ht⟩ := h
    rcases List.mem_cons.mp hb with hb | hb
    · subst hb
      have := tiled_le rest (c + b.2.1) e ht
      omega
    · have := ih (c + x.2.1) e ht b hb
      omega

theorem tiled_pairwise_lt :
    ∀ (l : List Block) (c e : Nat), tiled c l e →
      (∀ b ∈ l, 0 < b.2.1) → l.Pairwise (fun x y => x.1 < y.1) := by
  intro l
  induction l with
  | nil => intro c e _ _; exact List.Pairwise.nil
  | cons x rest ih =>
    intro c e h hpos
    obtain ⟨hx, ht⟩ := h
    refine List.Pairwise.cons ?_ (ih _ _ ht (fun b hb => hpos b (by simp [hb])))
    intro y hy
    have hb := (tiled_mem_bounds rest (c + x.2.1) e ht y hy).1
    have := hpos x (by simp)
    omega

theorem mem_freeOf {x : Nat × Nat} {l : List Block} :
    x ∈ freeOf l ↔ (x.1, x.2, true) ∈ l := by
  unfold freeOf
  rw [List.mem_filterMap]
  constructor
  · rintro ⟨⟨b1, b2, b3⟩, hb, hf⟩
    cases b3
    · simp at hf
    · rw [if_pos rfl] at hf
      injection hf with hf
      subst hf
      simpa using hb
  · intro hb
    refine ⟨(x.1, x.2, true), hb, ?_⟩
    rw [if_pos rfl]

theorem mem_allocOf {x : Nat × Nat} {l : List Block} :
    x ∈ allocOf l ↔ (x.1, x.2, false) ∈ l := by
  unfold allocOf
  rw [List.mem_filterMap]
  constructor
  · rintro ⟨⟨b1, b2, b3⟩, hb, hf⟩
    cases b3
    · rw [if_neg (by simp)] at hf
      injection hf with hf
      subst hf
      simpa using hb
    · simp at hf
  · intro hb
    refine ⟨(x.1, x.2, false), hb, ?_⟩
    rw [if_neg (by simp)]

theorem freeOf_append (X Y : List Block) :
    freeOf (X ++ Y) = freeOf X ++ freeOf Y := by
  unfold freeOf
  exact List.filterMap_append X Y _

theorem allocOf_append (X Y : List Block) :
    allocOf (X ++ Y) = allocOf X ++ allocOf Y := by
  unfold allocOf
  exact List.filterMap_append X Y _

theorem freeOf_cons_free (a n : Nat) (l : List Block) :
    freeOf ((a, n, true) :: l) = (a, n) :: freeOf l := by
  simp [freeOf]

theorem freeOf_cons_alloc (a n : Nat) (l : List Block) :
    freeOf ((a, n, false) :: l) = freeOf l := by
  simp [freeOf]

theorem allocOf_cons_free (a n : Nat) (l : List Block) :
    allocOf ((a, n, true) :: l) = allocOf l := by
  simp [allocOf]

theorem allocOf_cons_alloc (a n : Nat) (l : List Block) :
    allocOf ((a, n, false) :: l) = (a, n) :: allocOf l := by
  simp [allocOf]

theorem freeOf_split :
    ∀ (l : List Block) (l1 l2 : List (Nat × Nat)) (x : Nat × Nat),
      freeOf l = l1 ++ x :: l2 →
      ∃ L1 L2, l = L1 ++ (x.1, x.2, true) :: L2 ∧
        freeOf L1 = l1 ∧ freeOf L2 = l2 := by
  intro l
  induction l with
  | nil => intro l1 l2 x h; simp [freeOf] at h
  | cons b rest ih =>
    intro l1 l2 x h
    rcases b with ⟨b1, b2, b3⟩
    cases b3 with
    | false =>
      rw [freeOf_cons_alloc] at h
      obtain ⟨L1, L2, he, h1, h2⟩ := ih l1 l2 x h
      exact ⟨(b1, b2, false) :: L1, L2, by rw [he]; rfl,
        by rw [freeOf_cons_alloc, h1], h2⟩
    | true =>
      rw [freeOf_cons_free] at h
      cases l1 with
      | nil =>
        simp only [List.nil_append, List.cons.injEq] at h
        obtain ⟨hx, hrest⟩ := h
        subst hx
        exact ⟨[], rest, rfl, rfl, hrest⟩
      | cons y l1' =>
        simp at h
        obtain ⟨hy, hrest⟩ := h
        obtain ⟨L1, L2, he, h1, h2⟩ := ih l1' l2 x hrest
        exact ⟨(b1, b2, true) :: L1, L2, by rw [he]; rfl,
          by rw [freeOf_cons_free, h1, hy], h2⟩

theorem add_free_block_append :
    ∀ (l1 l2 : List (Nat × Nat)) (nb : Nat × Nat),
      (∀ x ∈ l1, x.1 ≤ nb.1) → (∀ y ∈ l2.head?, nb.1 < y.1) →
      add_free_block (l1 ++ l2) nb = l1 ++ nb :: l2 := by
  intro l1
  induction l1 with
  | nil =>
    intro l2 nb _ h2
    cases l2 with
    | nil => rfl
    | cons y t =>
      show add_free_block (y :: t) nb = nb :: y :: t
      rw [add_free_block, if_pos (h2 y rfl)]
  | cons x t ih =>
    intro l2 nb h1 h2
    show add_free_block (x :: (t ++ l2)) nb = x :: (t ++ nb :: l2)
    rw [add_free_block, if_neg (by have := h1 x (by simp); omega),
      ih l2 nb (fun z hz => h1 z (by simp [hz])) h2]

theorem merge_sweep_noadj :
    ∀ (rest : List (Nat × Nat)) (b : Nat × Nat),
      (b :: rest).Pairwise (fun u v => u.1 + u.2 ≠ v.1) →
      merge_sweep b rest = b :: rest := by
  intro rest
  induction rest with
  | nil => intro b _; rfl
  | cons c t ih =>
    intro b h
    rw [merge_sweep,
      if_neg (List.rel_of_pairwise_cons h (List.mem_cons_self c t)),
      ih c h.of_cons]

theorem merge_sweep_through :
    ∀ (l1 : List (Nat × Nat)) (b : Nat × Nat) (rest : List (Nat × Nat)),
      (b :: l1).Pairwise (fun u v => u.1 + u.2 ≠ v.1) →
      (∀ x ∈ b :: l1, ∀ y ∈ rest.head?, x.1 + x.2 ≠ y.1) →
      merge_sweep b (l1 ++ rest) = (b :: l1) ++ merge_free_blocks rest := by
  intro l1
  induction l1 with
  | nil =>
    intro b rest _ hb
    cases rest with
    | nil => rfl
    | cons r0 t =>
      show merge_sweep b (r0 :: t) = b :: merge_free_blocks (r0 :: t)
      rw [merge_sweep, if_neg (hb b (by simp) r0 rfl)]
      rfl
  | cons c t ih =>
    intro b rest hpw hb
    show merge_sweep b (c :: (t ++ rest)) = b :: ((c :: t) ++ merge_free_blocks rest)
    rw [merge_sweep,
      if_neg (List.rel_of_pairwise_cons hpw (by simp)),
      ih c rest hpw.of_cons (fun x hx y hy => hb x (by
        rcases List.mem_cons.mp hx with hx | hx
        · simp [hx]
        · simp [hx]) y hy)]

theorem merge_front_skip :
    ∀ (F1 : List (Nat × Nat)) (x : Nat × Nat) (F2 : List (Nat × Nat)),
      F1.Pairwise (fun u v => u.1 + u.2 ≠ v.1) →
      (∀ u ∈ F1, u.1 + u.2 ≠ x.1) →
      merge_free_blocks (F1 ++ x :: F2) = F1 ++ merge_sweep x F2 := by
  intro F1 x F2 hpw hne
  cases F1 with
  | nil => rfl
  | cons f0 t =>
    show merge_free_blocks (f0 :: (t ++ x :: F2)) = (f0 :: t) ++ merge_sweep x F2
    rw [merge_free_blocks, merge_sweep_through t f0 (x :: F2) hpw
      (fun u hu y hy => by
        have hxy : x = y := by simpa using hy
        subst hxy
        exact hne u hu)]
    rfl

theorem merge_sweep_cons_adj (b c : Nat × Nat) (rest : List (Nat × Nat))
    (h : b.1 + b.2 = c.1) :
    merge_sweep b (c :: rest) = merge_sweep (b.1, b.2 + c.2) rest := by
  rw [merge_sweep, if_pos h]

theorem last_free_block (L1 : List Block) (c a : Nat) (x : Nat × Nat)
    (ht : tiled c L1 a) (hsz : ∀ b ∈ L1, 0 < b.2.1)
    (hm : (x.1, x.2, true) ∈ L1) (he : x.1 + x.2 = a) :
    ∃ P, L1 = P ++ [(x.1, x.2, true)] := by
  obtain ⟨P, Q, hPQ⟩ := List.append_of_mem hm
  subst hPQ
  rcases Q with _ | ⟨q, t⟩
  · exact ⟨P, rfl⟩
  · exfalso
    obtain ⟨m, h1, h2⟩ := (tiled_append P c a _).mp ht
    obtain ⟨hx, h3⟩ := h2
    have hx2 : x.1 = m := hx
    have hq1 : m + x.2 ≤ q.1 := (tiled_mem_bounds _ _ _ h3 q (by simp)).1
    have hq2 : q.1 + q.2.1 ≤ a := (tiled_mem_bounds _ _ _ h3 q (by simp)).2
    have hqpos := hsz q (by simp)
    omega

theorem head_free_block (L2 : List Block) (m e : Nat) (y : Nat × Nat)
    (ht : tiled m L2 e) (hsz : ∀ b ∈ L2, 0 < b.2.1)
    (hm : (y.1, y.2, true) ∈ L2) (hs : y.1 = m) :
    ∃ Q, L2 = (y.1, y.2, true) :: Q := by
  rcases L2 with _ | ⟨h0, t⟩
  · simp at hm
  · rcases List.mem_cons.mp hm with hm | hm
    · exact ⟨t, by rw [hm]⟩
    · exfalso
      obtain ⟨hh, h2⟩ := ht
      have hb : m + h0.2.1 ≤ y.1 := (tiled_mem_bounds _ _ _ h2 _ hm).1
      have := hsz h0 (by simp)
      omega

theorem Inv_init (start size : Nat) (h8 : start % 8 = 0)
    (hs8 : size % 8 = 0) (hmin : MIN_BLOCK_SIZE ≤ size) :
    Inv (initHeap start size) := by
  refine ⟨h8, [(start, size, true)], ⟨rfl, rfl⟩, ?_, rfl, List.Perm.refl _, ?_⟩
  · intro b hb
    simp at hb
    subst hb
    exact ⟨hs8, hmin⟩
  · simp [initHeap]

theorem Inv_allocate (s : HeapState) (n : Nat) (h : Inv s) :
    Inv (allocate s n).1 := by
  obtain ⟨h8, l, ht, hsz, hfo, hperm, hpw⟩ := h
  unfold allocate
  rcases hf : find_fit (total_size n) s.free with _ | ⟨l1, b, l2⟩
  · exact ⟨h8, l, ht, hsz, hfo, hperm, hpw⟩
  · obtain ⟨hsplit, hfit⟩ := find_fit_eq hf
    obtain ⟨L1, L2, hl, hf1, hf2⟩ := freeOf_split l l1 l2 b (by rw [hfo, hsplit])
    subst hl
    obtain ⟨m, ht1, ht2⟩ := (tiled_append L1 _ _ _).mp ht
    obtain ⟨hbm, htr⟩ := ht2
    have hm' : m = b.1 := hbm.symm
    subst hm'
    have ht2' : tiled (b.1 + b.2) L2 s.heap_end := htr
    have hbsz : goodSize b.2 := hsz (b.1, b.2, true) (by simp)
    have hL1 : ∀ x ∈ L1, s.heap_start ≤ x.1 ∧ x.1 + x.2.1 ≤ b.1 :=
      fun x hx => tiled_mem_bounds _ _ _ ht1 x hx
    have hL2 : ∀ z ∈ L2, b.1 + b.2 ≤ z.1 ∧ z.1 + z.2.1 ≤ s.heap_end :=
      fun z hz => tiled_mem_bounds _ _ _ ht2' z hz
    rw [hsplit] at hpw
    obtain ⟨p1, p23, cross⟩ := List.pairwise_append.mp hpw
    by_cases hc : MIN_BLOCK_SIZE ≤ b.2 - total_size n
    · simp only [if_pos hc]
      have htot : total_size n < b.2 := by
        have := min_block_le_total_size n
        unfold MIN_BLOCK_SIZE at hc this
        omega
      have hins : add_free_block (l1 ++ l2)
          (b.1 + total_size n, b.2 - total_size n) =
          l1 ++ (b.1 + total_size n, b.2 - total_size n) :: l2 := by
        refine add_free_block_append l1 l2 _ ?_ ?_
        · intro x hx
          have hxm := (hL1 (x.1, x.2, true) (mem_freeOf.mp (hf1 ▸ hx))).2
          simp only at hxm
          omega
        · intro y hy
          have hym := (hL2 (y.1, y.2, true)
            (mem_freeOf.mp (hf2 ▸ List.mem_of_mem_head? hy))).1
          simp only at hym
          omega
      refine ⟨h8, L1 ++ (b.1, total_size n, false) ::
        (b.1 + total_size n, b.2 - total_size n, true) :: L2,
        ?_, ?_, ?_, ?_, ?_⟩
      · refine (tiled_append _ _ _ _).mpr ⟨b.1, ht1, rfl, rfl, ?_⟩
        show tiled (b.1 + total_size n + (b.2 - total_size n)) L2 s.heap_end
        have he : b.1 + total_size n + (b.2 - total_size n) = b.1 + b.2 := by
          omega
        rw [he]
        exact ht2'
      · intro x hx
        rcases List.mem_append.mp hx with hx | hx
        · exact hsz x (by simp [hx])
        · rcases List.mem_cons.mp hx with hx | hx
          · subst hx
            exact ⟨total_size_mod8 n, min_block_le_total_size n⟩
          · rcases List.mem_cons.mp hx with hx | hx
            · subst hx
              refine ⟨?_, hc⟩
              show (b.2 - total_size n) % 8 = 0
              have h1 := hbsz.1
              have h2 := total_size_mod8 n
              omega
            · exact hsz x (by simp [hx])
      · rw [freeOf_append, freeOf_cons_alloc, freeOf_cons_free, hf1, hf2, hins]
      · rw [allocOf_append, allocOf_cons_alloc, allocOf_cons_free]
        have hperm' : (allocOf L1 ++ allocOf L2).Perm s.allocs := by
          have : allocOf (L1 ++ (b.1, b.2, true) :: L2) =
              allocOf L1 ++ allocOf L2 := by
            rw [allocOf_append, allocOf_cons_free]
          exact this ▸ hperm
        exact List.perm_middle.trans (hperm'.cons _)
      · rw [hins]
        refine List.pairwise_append.mpr ⟨p1, ?_, ?_⟩
        · refine List.Pairwise.cons ?_ p23.of_cons
          intro y hy
          have := List.rel_of_pairwise_cons p23 hy
          unfold gap at this ⊢
          omega
        · intro x hx y hy
          rcases List.mem_cons.mp hy with hy | hy
          · subst hy
            have := cross x hx b (by simp)
            unfold gap at this ⊢
            omega
          · exact cross x hx y (by simp [hy])
    · simp only [if_neg hc]
      refine ⟨h8, L1 ++ (b.1, b.2, false) :: L2, ?_, ?_, ?_, ?_, ?_⟩
      · exact (tiled_append _ _ _ _).mpr ⟨b.1, ht1, rfl, ht2'⟩
      · intro x hx
        rcases List.mem_append.mp hx with hx | hx
        · exact hsz x (by simp [hx])
        · rcases List.mem_cons.mp hx with hx | hx
          · subst hx
            exact hbsz
          · exact hsz x (by simp [hx])
      · rw [freeOf_append, freeOf_cons_alloc, hf1, hf2]
      · rw [allocOf_append, allocOf_cons_alloc]
        have hperm' : (allocOf L1 ++ allocOf L2).Perm s.allocs := by
          have : allocOf (L1 ++ (b.1, b.2, true) :: L2) =
              allocOf L1 ++ allocOf L2 := by
            rw [allocOf_append, allocOf_cons_free]
          exact this ▸ hperm
        exact List.perm_middle.trans (hperm'.cons _)
      · refine List.pairwise_append.mpr ⟨p1, p23.of_cons, ?_⟩
        intro x hx y hy
        exact cross x hx y (by simp [hy])

theorem Inv_deallocate (s : HeapState) (p : Nat) (s' : HeapState)
    (h : Inv s) (hd : deallocate s p = some s') : Inv s' := by
  obtain ⟨h8, l, ht, hsz, hfo, hperm, hpw⟩ := h
  unfold deallocate at hd
  rcases hfind : s.allocs.find? (fun e => e.1 == p - HEADER_SIZE) with _ | ⟨a, sz⟩
  · rw [hfind] at hd
    simp at hd
  · rw [hfind] at hd
    injection hd with hd
    subst hd
    have hq := List.find?_some hfind
    have hpa : a = p - HEADER_SIZE := by simpa using hq
    have hmem : (a, sz) ∈ s.allocs := List.mem_of_find?_eq_some hfind
    have hmem' : (a, sz, false) ∈ l := mem_allocOf.mp (hperm.mem_iff.mpr hmem)
    obtain ⟨L1, L2, hl⟩ := List.append_of_mem hmem'
    subst hl
    obtain ⟨m, ht1, ht2⟩ := (tiled_append L1 _ _ _).mp ht
    obtain ⟨ham, htr⟩ := ht2
    have hm' : a = m := ham
    subst hm'
    have ht2' : tiled (a + sz) L2 s.heap_end := htr
    have hgood : goodSize sz := hsz (a, sz, false) (by simp)
    have hmax : max sz MIN_BLOCK_SIZE = sz := Nat.max_eq_left hgood.2
    have hszpos : 0 < sz := by
      have := hgood.2
      unfold MIN_BLOCK_SIZE at this
      omega
    have hpos : ∀ b ∈ L1 ++ (a, sz, false) :: L2, 0 < b.2.1 := by
      intro b hb
      have h1 := (hsz b hb).2
      unfold MIN_BLOCK_SIZE at h1
      omega
    have hfo' : s.free = freeOf L1 ++ freeOf L2 := by
      rw [← hfo, freeOf_append, freeOf_cons_alloc]
    have hF1 : ∀ x ∈ freeOf L1, x.1 + x.2 ≤ a ∧ 0 < x.2 := by
      intro x hx
      have hm1 := mem_freeOf.mp hx
      have hb := tiled_mem_bounds L1 s.heap_start a ht1 _ hm1
      have hp := hpos (x.1, x.2, true) (by simp [hm1])
      exact ⟨hb.2, hp⟩
    have hF2 : ∀ y ∈ freeOf L2, a + sz ≤ y.1 ∧ 0 < y.2 := by
      intro y hy
      have hm2 := mem_freeOf.mp hy
      have hb := tiled_mem_bounds L2 (a + sz) s.heap_end ht2' _ hm2
      have hp := hpos (y.1, y.2, true) (by simp [hm2])
      exact ⟨hb.1, hp⟩
    have hA1 : ∀ x ∈ allocOf L1, x.1 + x.2 ≤ a ∧ 0 < x.2 := by
      intro x hx
      have hm1 := mem_allocOf.mp hx
      have hb := tiled_mem_bounds L1 s.heap_start a ht1 _ hm1
      have hp := hpos (x.1, x.2, false) (by simp [hm1])
      exact ⟨hb.2, hp⟩
    have hA2 : ∀ x ∈ allocOf L2, a + sz ≤ x.1 := by
      intro x hx
      have hm2 := mem_allocOf.mp hx
      exact (tiled_mem_bounds L2 (a + sz) s.heap_end ht2' _ hm2).1
    have hins : add_free_block s.free (a, sz) =
        freeOf L1 ++ (a, sz) :: freeOf L2 := by
      rw [hfo']
      refine add_free_block_append _ _ _ ?_ ?_
      · intro x hx
        have := hF1 x hx
        show x.1 ≤ a
        omega
      · intro y hy
        have := hF2 y (List.mem_of_mem_head? hy)
        show a < y.1
        omega
    rw [hmax, hins]
    rw [hfo'] at hpw
    obtain ⟨pF1, pF2, cross⟩ := List.pairwise_append.mp hpw
    have gap_ne : ∀ (F : List (Nat × Nat)), F.Pairwise gap →
        F.Pairwise (fun u v => u.1 + u.2 ≠ v.1) :=
      fun F hF => hF.imp (fun hg => Nat.ne_of_lt hg)
    have hAl : allocOf (L1 ++ (a, sz, false) :: L2) =
        allocOf L1 ++ (a, sz) :: allocOf L2 := by
      rw [allocOf_append, allocOf_cons_alloc]
    have hperm' : (allocOf L1 ++ allocOf L2).Perm
        (List.eraseP (fun e => e.1 == p - HEADER_SIZE) s.allocs) := by
      have hq2 : (fun e : Nat × Nat => e.1 == p - HEADER_SIZE) (a, sz) = true := hq
      obtain ⟨c, M1, M2, hM1, hc, hsplit, herase⟩ :=
        @List.exists_of_eraseP (Nat × Nat) (fun e => e.1 == p - HEADER_SIZE)
          s.allocs (a, sz) hmem hq2
      have hc1 : c.1 = a := by
        have : c.1 = p - HEADER_SIZE := by simpa using hc
        omega
      have hcmem : c ∈ allocOf L1 ++ (a, sz) :: allocOf L2 := by
        have h1 : c ∈ s.allocs := by
          rw [hsplit]
          exact List.mem_append_right _ (List.mem_cons_self _ _)
        have h2 := hperm.mem_iff.mpr h1
        rw [hAl] at h2
        exact h2
      have hceq : c = (a, sz) := by
        rcases List.mem_append.mp hcmem with hcm | hcm
        · exfalso
          have := hA1 c hcm
          omega
        · rcases List.mem_cons.mp hcm with hcm | hcm
          · exact hcm
          · exfalso
            have := hA2 c hcm
            omega
      subst hceq
      rw [herase]
      have h3 : (allocOf L1 ++ (a, sz) :: allocOf L2).Perm ((a, sz) :: (M1 ++ M2)) := by
        rw [← hAl]
        rw [hsplit] at hperm
        exact hperm.trans List.perm_middle
      exact (List.perm_middle.symm.trans h3).cons_inv
    by_cases hadjL : ∃ u ∈ freeOf L1, u.1 + u.2 = a
    · obtain ⟨u, hu, hue⟩ := hadjL
      obtain ⟨P, hP⟩ := last_free_block L1 s.heap_start a u ht1
        (fun b hb => hpos b (by simp [hb])) (mem_freeOf.mp hu) hue
      have hfP : freeOf L1 = freeOf P ++ [(u.1, u.2)] := by
        rw [hP, freeOf_append]
        simp [freeOf]
      have htP : tiled s.heap_start (P ++ [(u.1, u.2, true)]) a := hP ▸ ht1
      obtain ⟨m1, htPa, htPb⟩ := (tiled_append P _ _ _).mp htP
      have htPb' : u.1 = m1 ∧ m1 + u.2 = a := htPb
      have hm1 : m1 = u.1 := htPb'.1.symm
      subst hm1
      have hugood : goodSize u.2 := hsz (u.1, u.2, true) (by simp [mem_freeOf.mp hu])
      obtain ⟨pP, _, crossP0⟩ := List.pairwise_append.mp (hfP ▸ pF1)
      have crossP : ∀ w ∈ freeOf P, w.1 + w.2 < u.1 :=
        fun w hw => crossP0 w hw (u.1, u.2) (by simp)
      have hmemP : ∀ x ∈ P, x ∈ L1 ++ (a, sz, false) :: L2 := by
        intro x hx
        rw [hP]
        simp [hx]
      by_cases hadjR : ∃ v ∈ freeOf L2, v.1 = a + sz
      · -- both neighbours free: triple coalesce into (u.1, u.2 + sz + v.2)
        obtain ⟨v, hv, hve⟩ := hadjR
        obtain ⟨Q, hQ⟩ := head_free_block L2 (a + sz) s.heap_end v ht2'
          (fun b hb => hpos b (by simp [hb])) (mem_freeOf.mp hv) hve
        have hfQ : freeOf L2 = (v.1, v.2) :: freeOf Q := by
          rw [hQ, freeOf_cons_free]
        have htQ : tiled (a + sz) ((v.1, v.2, true) :: Q) s.heap_end := hQ ▸ ht2'
        have htQ' : tiled (a + sz + v.2) Q s.heap_end := htQ.2
        have hvgood : goodSize v.2 := hsz (v.1, v.2, true) (by simp [mem_freeOf.mp hv])
        have hmemQ : ∀ x ∈ Q, x ∈ L1 ++ (a, sz, false) :: L2 := by
          intro x hx
          rw [hQ]
          simp [hx]
        have pQ : (freeOf Q).Pairwise gap := (hfQ ▸ pF2).of_cons
        have hvlt : ∀ y ∈ freeOf Q, gap (v.1, v.2) y :=
          fun y hy => List.rel_of_pairwise_cons (hfQ ▸ pF2) hy
        have hmerge : merge_free_blocks (freeOf L1 ++ (a, sz) :: freeOf L2) =
            freeOf P ++ (u.1, u.2 + sz + v.2) :: freeOf Q := by
          rw [hfP, hfQ, List.append_assoc, List.singleton_append]
          rw [merge_front_skip (freeOf P) (u.1, u.2) _ (gap_ne _ pP)
            (fun w hw => Nat.ne_of_lt (crossP w hw))]
          rw [merge_sweep_cons_adj (u.1, u.2) (a, sz) _ hue]
          rw [merge_sweep_cons_adj (u.1, u.2 + sz) (v.1, v.2) _ (by show u.1 + (u.2 + sz) = v.1; omega)]
          have hnorm : ((u.1, u.2 + sz).1, (u.1, u.2 + sz).2 + v.2) = (u.1, u.2 + sz + v.2) := rfl
          rw [hnorm]
          rw [merge_sweep_noadj (freeOf Q) (u.1, u.2 + sz + v.2)
            (List.Pairwise.cons (fun y hy => by
              have h7 : v.1 + v.2 < y.1 := hvlt y hy
              show u.1 + (u.2 + sz + v.2) ≠ y.1
              omega) (gap_ne _ pQ))]
        rw [hmerge]
        refine ⟨h8, P ++ (u.1, u.2 + sz + v.2, true) :: Q, ?_, ?_, ?_, ?_, ?_⟩
        · refine (tiled_append _ _ _ _).mpr ⟨u.1, htPa, rfl, ?_⟩
          show tiled (u.1 + (u.2 + sz + v.2)) Q s.heap_end
          have he : u.1 + (u.2 + sz + v.2) = a + sz + v.2 := by omega
          rw [he]
          exact htQ'
        · intro x hx
          rcases List.mem_append.mp hx with hx | hx
          · exact hsz x (hmemP x hx)
          · rcases List.mem_cons.mp hx with hx | hx
            · subst hx
              refine ⟨?_, ?_⟩
              · show (u.2 + sz + v.2) % 8 = 0
                have := hugood.1
                have := hgood.1
                have := hvgood.1
                omega
              · show MIN_BLOCK_SIZE ≤ u.2 + sz + v.2
                have := hgood.2
                omega
            · exact hsz x (hmemQ x hx)
        · rw [freeOf_append, freeOf_cons_free]
        · rw [allocOf_append, allocOf_cons_free]
          have h4 : allocOf L1 ++ allocOf L2 = allocOf P ++ allocOf Q := by
            rw [hP, hQ, allocOf_append, allocOf_cons_free]
            simp [allocOf]
          rw [← h4]
          exact hperm'
        · refine List.pairwise_append.mpr ⟨pP, ?_, ?_⟩
          · refine List.Pairwise.cons (fun y hy => ?_) pQ
            have h7 : v.1 + v.2 < y.1 := hvlt y hy
            show u.1 + (u.2 + sz + v.2) < y.1
            omega
          · intro w hw y hy
            rcases List.mem_cons.mp hy with hy | hy
            · subst hy
              have := crossP w hw
              show w.1 + w.2 < u.1
              omega
            · have hwL1 : w ∈ freeOf L1 := by rw [hfP]; simp [hw]
              have hyL2 : y ∈ freeOf L2 := by rw [hfQ]; simp [hy]
              exact cross w hwL1 y hyL2
      · -- only the left neighbour is free: coalesce into (u.1, u.2 + sz)
        have hne2 : ∀ v ∈ freeOf L2, v.1 ≠ a + sz :=
          fun v hv he => hadjR ⟨v, hv, he⟩
        have hmerge : merge_free_blocks (freeOf L1 ++ (a, sz) :: freeOf L2) =
            freeOf P ++ (u.1, u.2 + sz) :: freeOf L2 := by
          rw [hfP, List.append_assoc, List.singleton_append]
          rw [merge_front_skip (freeOf P) (u.1, u.2) _ (gap_ne _ pP)
            (fun w hw => Nat.ne_of_lt (crossP w hw))]
          rw [merge_sweep_cons_adj (u.1, u.2) (a, sz) _ hue]
          rw [merge_sweep_noadj (freeOf L2) (u.1, u.2 + sz)
            (List.Pairwise.cons (fun y hy => by
              have := hne2 y hy
              show u.1 + (u.2 + sz) ≠ y.1
              omega) (gap_ne _ pF2))]
        rw [hmerge]
        refine ⟨h8, P ++ (u.1, u.2 + sz, true) :: L2, ?_, ?_, ?_, ?_, ?_⟩
        · refine (tiled_append _ _ _ _).mpr ⟨u.1, htPa, rfl, ?_⟩
          show tiled (u.1 + (u.2 + sz)) L2 s.heap_end
          have he : u.1 + (u.2 + sz) = a + sz := by omega
          rw [he]
          exact ht2'
        · intro x hx
          rcases List.mem_append.mp hx with hx | hx
          · exact hsz x (hmemP x hx)
          · rcases List.mem_cons.mp hx with hx | hx
            · subst hx
              refine ⟨?_, ?_⟩
              · show (u.2 + sz) % 8 = 0
                have := hugood.1
                have := hgood.1
                omega
              · show MIN_BLOCK_SIZE ≤ u.2 + sz
                have := hgood.2
                omega
            · exact hsz x (by simp [hx])
        · rw [freeOf_append, freeOf_cons_free]
        · rw [allocOf_append, allocOf_cons_free]
          have h4 : allocOf L1 ++ allocOf L2 = allocOf P ++ allocOf L2 := by
            rw [hP, allocOf_append]
            simp [allocOf]
          rw [← h4]
          exact hperm'
        · refine List.pairwise_append.mpr ⟨pP, ?_, ?_⟩
          · refine List.Pairwise.cons (fun y hy => ?_) pF2
            have h5 := hF2 y hy
            have h6 := hne2 y hy
            show u.1 + (u.2 + sz) < y.1
            omega
          · intro w hw y hy
            rcases List.mem_cons.mp hy with hy | hy
            · subst hy
              have := crossP w hw
              show w.1 + w.2 < u.1
              omega
            · have hwL1 : w ∈ freeOf L1 := by rw [hfP]; simp [hw]
              exact cross w hwL1 y hy
    · have hne1 : ∀ u ∈ freeOf L1, u.1 + u.2 ≠ a :=
        fun u hu he => hadjL ⟨u, hu, he⟩
      by_cases hadjR : ∃ v ∈ freeOf L2, v.1 = a + sz
      · -- only the right neighbour is free: coalesce into (a, sz + v.2)
        obtain ⟨v, hv, hve⟩ := hadjR
        obtain ⟨Q, hQ⟩ := head_free_block L2 (a + sz) s.heap_end v ht2'
          (fun b hb => hpos b (by simp [hb])) (mem_freeOf.mp hv) hve
        have hfQ : freeOf L2 = (v.1, v.2) :: freeOf Q := by
          rw [hQ, freeOf_cons_free]
        have htQ : tiled (a + sz) ((v.1, v.2, true) :: Q) s.heap_end := hQ ▸ ht2'
        have htQ' : tiled (a + sz + v.2) Q s.heap_end := htQ.2
        have hvgood : goodSize v.2 := hsz (v.1, v.2, true) (by simp [mem_freeOf.mp hv])
        have hmemQ : ∀ x ∈ Q, x ∈ L1 ++ (a, sz, false) :: L2 := by
          intro x hx
          rw [hQ]
          simp [hx]
        have pQ : (freeOf Q).Pairwise gap := (hfQ ▸ pF2).of_cons
        have hvlt : ∀ y ∈ freeOf Q, gap (v.1, v.2) y :=
          fun y hy => List.rel_of_pairwise_cons (hfQ ▸ pF2) hy
        have hmerge : merge_free_blocks (freeOf L1 ++ (a, sz) :: freeOf L2) =
            freeOf L1 ++ (a, sz + v.2) :: freeOf Q := by
          rw [hfQ]
          rw [merge_front_skip (freeOf L1) (a, sz) _ (gap_ne _ pF1) hne1]
          rw [merge_sweep_cons_adj (a, sz) (v.1, v.2) _ (by show a + sz = v.1; omega)]
          rw [merge_sweep_noadj (freeOf Q) (a, sz + v.2)
            (List.Pairwise.cons (fun y hy => by
              have h7 : v.1 + v.2 < y.1 := hvlt y hy
              show a + (sz + v.2) ≠ y.1
              omega) (gap_ne _ pQ))]
        rw [hmerge]
        refine ⟨h8, L1 ++ (a, sz + v.2, true) :: Q, ?_, ?_, ?_, ?_, ?_⟩
        · refine (tiled_append _ _ _ _).mpr ⟨a, ht1, rfl, ?_⟩
          show tiled (a + (sz + v.2)) Q s.heap_end
          have he : a + (sz + v.2) = a + sz + v.2 := by omega
          rw [he]
          exact htQ'
        · intro x hx
          rcases List.mem_append.mp hx with hx | hx
          · exact hsz x (by simp [hx])
          · rcases List.mem_cons.mp hx with hx | hx
            · subst hx
              refine ⟨?_, ?_⟩
              · show (sz + v.2) % 8 = 0
                have := hgood.1
                have := hvgood.1
                omega
              · show MIN_BLOCK_SIZE ≤ sz + v.2
                have := hgood.2
                omega
            · exact hsz x (hmemQ x hx)
        · rw [freeOf_append, freeOf_cons_free]
        · rw [allocOf_append, allocOf_cons_free]
          have h4 : allocOf L1 ++ allocOf L2 = allocOf L1 ++ allocOf Q := by
            rw [hQ, allocOf_cons_free]
          rw [← h4]
          exact hperm'
        · refine List.pairwise_append.mpr ⟨pF1, ?_, ?_⟩
          · refine List.Pairwise.cons (fun y hy => ?_) pQ
            have h7 : v.1 + v.2 < y.1 := hvlt y hy
            show a + (sz + v.2) < y.1
            omega
          · intro w hw y hy
            rcases List.mem_cons.mp hy with hy | hy
            · subst hy
              have h5 := hF1 w hw
              have h6 := hne1 w hw
              show w.1 + w.2 < a
              omega
            · have hyL2 : y ∈ freeOf L2 := by rw [hfQ]; simp [hy]
              exact cross w hw y hyL2
      · -- no free neighbour: the freed block is inserted as-is
        have hne2 : ∀ v ∈ freeOf L2, v.1 ≠ a + sz :=
          fun v hv he => hadjR ⟨v, hv, he⟩
        have hmerge : merge_free_blocks (freeOf L1 ++ (a, sz) :: freeOf L2) =
            freeOf L1 ++ (a, sz) :: freeOf L2 := by
          rw [merge_front_skip (freeOf L1) (a, sz) _ (gap_ne _ pF1) hne1]
          rw [merge_sweep_noadj (freeOf L2) (a, sz)
            (List.Pairwise.cons (fun y hy => by
              have := hne2 y hy
              show a + sz ≠ y.1
              omega) (gap_ne _ pF2))]
        rw [hmerge]
        refine ⟨h8, L1 ++ (a, sz, true) :: L2, ?_, ?_, ?_, ?_, ?_⟩
        · exact (tiled_append _ _ _ _).mpr ⟨a, ht1, rfl, ht2'⟩
        · intro x hx
          rcases List.mem_append.mp hx with hx | hx
          · exact hsz x (by simp [hx])
          · rcases List.mem_cons.mp hx with hx | hx
            · subst hx
              exact hgood
            · exact hsz x (by simp [hx])
        · rw [freeOf_append, freeOf_cons_free]
        · rw [allocOf_append, allocOf_cons_free]
          exact hperm'
        · refine List.pairwise_append.mpr ⟨pF1, ?_, ?_⟩
          · refine List.Pairwise.cons (fun y hy => ?_) pF2
            have h5 := hF2 y hy
            have h6 := hne2 y hy
            show a + sz < y.1
            omega
          · intro w hw y hy
            rcases List.mem_cons.mp hy with hy | hy
            · subst hy
              have h5 := hF1 w hw
              have h6 := hne1 w hw
              show w.1 + w.2 < a
              omega
            · exact cross w hw y hy

end Heap

/-! ### Packet pool lemmas -/

namespace Pool

theorem rx_buffer_ready_iter (n : Nat) (p : PacketPool)
    (h : p.rx_head < RX_BUFFER_COUNT) :
    (rx_buffer_ready^[n] p).rx_head = (p.rx_head + n) % RX_BUFFER_COUNT := by
  induction n with
  | zero => simpa using (Nat.mod_eq_of_lt h).symm
  | succ m ih =>
    rw [Function.iterate_succ_apply']
    show ((rx_buffer_ready^[m] p).rx_head + 1) % RX_BUFFER_COUNT = _
    rw [ih]
    unfold RX_BUFFER_COUNT
    omega

theorem rx_buffer_ready_tail (n : Nat) (p : PacketPool) :
    (rx_buffer_ready^[n] p).rx_tail = p.rx_tail := by
  induction n with
  | zero => rfl
  | succ m ih => rw [Function.iterate_succ_apply']; exact ih

theorem rx_buffer_ready_dropped (n : Nat) (p : PacketPool) :
    (rx_buffer_ready^[n] p).rx_dropped = p.rx_dropped := by
  induction n with
  | zero => rfl
  | succ m ih => rw [Function.iterate_succ_apply']; exact ih

theorem get_rx_full {p : PacketPool}
    (h : (p.rx_head + 1) % RX_BUFFER_COUNT = p.rx_tail) :
    get_rx_buffer_for_write p =
      (none, { p with rx_dropped := p.rx_dropped + 1 }) := by
  unfold get_rx_buffer_for_write
  rw [if_pos h]

theorem get_rx_not_full {p : PacketPool}
    (h : ¬ (p.rx_head + 1) % RX_BUFFER_COUNT = p.rx_tail) :
    get_rx_buffer_for_write p = (some p.rx_head, p) := by
  unfold get_rx_buffer_for_write
  rw [if_neg h]

theorem get_tx_full {p : PacketPool}
    (h : (p.tx_head + 1) % TX_BUFFER_COUNT = p.tx_tail) :
    get_tx_buffer p = none := by
  unfold get_tx_buffer
  rw [if_pos h]

theorem get_tx_not_full {p : PacketPool}
    (h : ¬ (p.tx_head + 1) % TX_BUFFER_COUNT = p.tx_tail) :
    get_tx_buffer p = some p.tx_head := by
  unfold get_tx_buffer
  rw [if_neg h]

end Pool

/-! ### TCP out-of-order buffer lemmas -/

namespace Tcp

theorem count_valid_none_cons (l : List (Option (Nat × List Nat))) :
    count_valid (none :: l) = count_valid l := by
  simp [count_valid]

theorem count_valid_some_cons (b : Nat × List Nat)
    (l : List (Option (Nat × List Nat))) :
    count_valid (some b :: l) = count_valid l + 1 := by
  simp [count_valid]

theorem ooo_extract_none_iff (t : Nat) :
    ∀ l, ooo_extract l t = none ↔ ∀ sg ∈ l, ∀ v ∈ sg, v.1 ≠ t := by
  intro l
  induction l with
  | nil => simp [ooo_extract]
  | cons hd rest ih =>
    cases hd with
    | none =>
      rw [ooo_extract]
      simp only [Option.map_eq_none']
      rw [ih]
      constructor
      · intro h sg hm v hv
        rcases List.mem_cons.mp hm with hm | hm
        · subst hm; simp at hv
        · exact h sg hm v hv
      · intro h sg hm v hv
        exact h sg (List.mem_cons_of_mem _ hm) v hv
    | some b =>
      rw [ooo_extract]
      by_cases hb : b.1 = t
      · rw [if_pos hb]
        simp only [reduceCtorEq, false_iff, not_forall]
        exact ⟨some b, by simp, b, by simp, by simpa using hb⟩
      · rw [if_neg hb]
        simp only [Option.map_eq_none']
        rw [ih]
        constructor
        · intro h sg hm v hv
          rcases List.mem_cons.mp hm with hm | hm
          · subst hm
            simp at hv
            subst hv
            exact hb
          · exact h sg hm v hv
        · intro h sg hm v hv
          exact h sg (List.mem_cons_of_mem _ hm) v hv

theorem ooo_extract_count (t : Nat) :
    ∀ l r, ooo_extract l t = some r →
      count_valid l = count_valid r.2 + 1 := by
  intro l
  induction l with
  | nil => intro r h; simp [ooo_extract] at h
  | cons hd rest ih =>
    intro r h
    cases hd with
    | none =>
      rw [ooo_extract] at h
      obtain ⟨r0, hr0, hf⟩ := Option.map_eq_some'.mp h
      subst hf
      rw [count_valid_none_cons]
      have hrec := ih r0 hr0
      show count_valid rest = count_valid (none :: r0.2) + 1
      rw [count_valid_none_cons]
      exact hrec
    | some b =>
      rw [ooo_extract] at h
      by_cases hb : b.1 = t
      · rw [if_pos hb] at h
        injection h with h'
        subst h'
        rw [count_valid_some_cons, count_valid_none_cons]
      · rw [if_neg hb] at h
        obtain ⟨r0, hr0, hf⟩ := Option.map_eq_some'.mp h
        subst hf
        rw [count_valid_some_cons]
        have hrec := ih r0 hr0
        show count_valid rest + 1 = count_valid (some b :: r0.2) + 1
        rw [count_valid_some_cons]
        omega

theorem deliver_ooo_go_rx :
    ∀ (fuel : Nat) (c : Tcb), ∃ extra,
      (deliver_ooo_go fuel c).rx_buffer = c.rx_buffer ++ extra := by
  intro fuel
  induction fuel with
  | zero => intro c; exact ⟨[], by simp [deliver_ooo_go]⟩
  | succ n ih =>
    intro c
    rw [deliver_ooo_go]
    rcases hx : ooo_extract c.ooo_segments c.rcv_nxt with _ | ⟨sg, ooo2⟩
    · exact ⟨[], by simp⟩
    · obtain ⟨e, he⟩ := ih
        { c with
          rx_buffer := c.rx_buffer ++
            sg.2.take (min sg.2.length (RX_BUFFER_SIZE - c.rx_buffer.length))
          rcv_nxt := w32 (c.rcv_nxt +
            min sg.2.length (RX_BUFFER_SIZE - c.rx_buffer.length))
          ooo_segments := ooo2 }
      exact ⟨sg.2.take (min sg.2.length (RX_BUFFER_SIZE - c.rx_buffer.length)) ++ e,
        by rw [he, List.append_assoc]⟩

theorem deliver_ooo_go_drained :
    ∀ (fuel : Nat) (c : Tcb), count_valid c.ooo_segments < fuel →
      ooo_extract (deliver_ooo_go fuel c).ooo_segments
        (deliver_ooo_go fuel c).rcv_nxt = none := by
  intro fuel
  induction fuel with
  | zero => intro c h; omega
  | succ n ih =>
    intro c h
    rw [deliver_ooo_go]
    rcases hx : ooo_extract c.ooo_segments c.rcv_nxt with _ | ⟨sg, ooo2⟩
    · exact hx
    · have hc := ooo_extract_count c.rcv_nxt c.ooo_segments (sg, ooo2) hx
      refine ih _ ?_
      show count_valid ooo2 < n
      simp only at hc
      omega

theorem deliver_ooo_segments_drained (c : Tcb) :
    ∀ sg ∈ (deliver_ooo_segments c).ooo_segments,
      ∀ v ∈ sg, v.1 ≠ (deliver_ooo_segments c).rcv_nxt := by
  have h := deliver_ooo_go_drained (count_valid c.ooo_segments + 1) c
    (by omega)
  exact (ooo_extract_none_iff _ _).mp h

theorem deliver_ooo_segments_rx (c : Tcb) :
    ∃ extra, (deliver_ooo_segments c).rx_buffer = c.rx_buffer ++ extra :=
  deliver_ooo_go_rx _ c

theorem ooo_insert_mem :
    ∀ (l : List (Option (Nat × List Nat))) (sg : Nat × List Nat) l2,
      ooo_insert l sg = some l2 → some sg ∈ l2 := by
  intro l
  induction l with
  | nil => intro sg l2 h; simp [ooo_insert] at h
  | cons hd rest ih =>
    intro sg l2 h
    cases hd with
    | none =>
      rw [ooo_insert] at h
      injection h with h'
      rw [← h']
      simp
    | some b =>
      rw [ooo_insert] at h
      obtain ⟨r0, hr0, hf⟩ := Option.map_eq_some'.mp h
      subst hf
      exact List.mem_cons_of_mem _ (ih sg r0 hr0)

theorem ooo_insert_of_empty_slot :
    ∀ (l : List (Option (Nat × List Nat))) (sg : Nat × List Nat),
      (∃ sl ∈ l, sl = none) → ∃ l2, ooo_insert l sg = some l2 := by
  intro l
  induction l with
  | nil => intro sg h; simp at h
  | cons hd rest ih =>
    intro sg h
    cases hd with
    | none => exact ⟨_, rfl⟩
    | some b =>
      obtain ⟨sl, hm, hn⟩ := h
      rcases List.mem_cons.mp hm with hm | hm
      · subst hm; simp at hn
      · obtain ⟨l2, hl⟩ := ih sg ⟨sl, hm, hn⟩
        exact ⟨some b :: l2, by rw [ooo_insert, hl]; rfl⟩

end Tcp

/-- Taking `min l.length n` elements is taking `n`. -/
theorem take_min_length {α : Type} (l : List α) (n : Nat) :
    l.take (min l.length n) = l.take n := by
  rcases Nat.le_total l.length n with h | h
  · rw [Nat.min_eq_left h, List.take_length, List.take_of_length_le h]
  · rw [Nat.min_eq_right h]

/-- `seq_after` is irreflexive (`wsub a a = 0`). -/
theorem seq_after_irrefl (a : Nat) : ¬ seq_after a a := by
  unfold seq_after wsub
  omega

/-! ## Claim theorems -/

/-- C2: for the kernel heap allocator in any state whose free-block
addresses are 8-aligned (which includes every reachable state): if
`allocate(n)` (alignment ≤ 8) returns a non-null pointer `p`, then
`deallocate(p)` succeeds and restores `get_heap_stats()` to exactly its
value from before the allocate.  Concretely, after
`init(0x200000, 0x200000)`, `allocate(1000, 8)` returns `P = 0x200010`
with `(P - 0x200000) % 8 == 0`, and deallocating `P` yields
`get_heap_stats() == (0, 0x200000)`. -/
theorem claim_C2_heap_roundtrip :
    (∀ (s : Heap.HeapState) (n p : Nat),
      (∀ b ∈ s.free, b.1 % 8 = 0) →
      (Heap.allocate s n).2 = some p →
      (Heap.deallocate (Heap.allocate s n).1 p).map Heap.get_heap_stats =
        some (Heap.get_heap_stats s)) ∧
    ((Heap.allocate (Heap.initHeap 0x200000 0x200000) 1000).2 = some 0x200010 ∧
      (0x200010 - 0x200000) % 8 = 0 ∧
      (Heap.deallocate (Heap.allocate (Heap.initHeap 0x200000 0x200000) 1000).1
          0x200010).map Heap.get_heap_stats = some (0, 0x200000)) :=
  ⟨fun s n p h8 hp => Heap.alloc_dealloc_stats s n p h8 hp,
   by decide, by decide, by decide⟩

/-- Witness for C2: the general round-trip statement applied at the
concrete scenario of the spec (`init(0x200000, 0x200000)`, `allocate(1000)`,
pointer `0x200010`). -/
theorem claim_C2_heap_roundtrip_witness :
    (Heap.deallocate (Heap.allocate (Heap.initHeap 0x200000 0x200000) 1000).1
        0x200010).map Heap.get_heap_stats =
      some (Heap.get_heap_stats (Heap.initHeap 0x200000 0x200000)) :=
  claim_C2_heap_roundtrip.1 (Heap.initHeap 0x200000 0x200000) 1000 0x200010
    (by decide) (by decide)

/-- C3: for every kernel-heap allocator state reachable from `init` by
any sequence of `allocate` / `deallocate` calls, the heap
`[heap_start, heap_end)` partitions exactly into the allocated blocks
and the free-list blocks with no gap or overlap (an exact tiling),
every block size is a multiple of 8 and at least `MIN_BLOCK_SIZE`, and
the free list is strictly sorted by ascending address with no two
physically adjacent free blocks (coalescing completeness). -/
theorem claim_C3_allocator_invariant (s : Heap.HeapState)
    (h : Heap.Reachable s) : Heap.Inv s := by
  induction h with
  | init start size h8 hs8 hmin => exact Heap.Inv_init start size h8 hs8 hmin
  | alloc s n _ ih => exact Heap.Inv_allocate s n ih
  | dealloc s p s' _ hd ih => exact Heap.Inv_deallocate s p s' ih hd

/-- Witness for C3: the invariant theorem applied to the concretely
reachable initial state `init(0x200000, 0x200000)` of the kernel. -/
theorem claim_C3_allocator_invariant_witness :
    Heap.Inv (Heap.initHeap 0x200000 0x200000) :=
  claim_C3_allocator_invariant (Heap.initHeap 0x200000 0x200000)
    (Heap.Reachable.init 0x200000 0x200000 (by decide) (by decide) (by decide))

/-- C5 (code bug): when a task exits via `exit_task()`, the scheduler
marks it `Finished` and (through `schedule`) reaps it from the task
vector, but `unload_task` is never invoked anywhere in the kernel — the
task's ledger entry (stack, code image, heap blocks) survives the exit
untouched.  Had `unload_task(id)` been called as its own documentation
says, it would have removed the ledger entry and released the heap
blocks, then the code image, then the stack, in that order.  Evaluated
on a concrete one-task kernel. -/
theorem claim_C5_exit_task_never_unloads :
    (Sched.exit_task 0
        { tasks := [⟨7, Sched.TaskState.Running, 0⟩], current := 0,
          ledger := [(7, ⟨(0x400000, 16384), some (0x404000, 8192),
            [(0x406000, 4096)]⟩)] }).tasks = [] ∧
    (Sched.exit_task 0
        { tasks := [⟨7, Sched.TaskState.Running, 0⟩], current := 0,
          ledger := [(7, ⟨(0x400000, 16384), some (0x404000, 8192),
            [(0x406000, 4096)]⟩)] }).ledger =
      [(7, ⟨(0x400000, 16384), some (0x404000, 8192), [(0x406000, 4096)]⟩)] ∧
    (Sched.unload_task
        { tasks := [⟨7, Sched.TaskState.Running, 0⟩], current := 0,
          ledger := [(7, ⟨(0x400000, 16384), some (0x404000, 8192),
            [(0x406000, 4096)]⟩)] } 7).1.ledger = [] ∧
    (Sched.unload_task
        { tasks := [⟨7, Sched.TaskState.Running, 0⟩], current := 0,
          ledger := [(7, ⟨(0x400000, 16384), some (0x404000, 8192),
            [(0x406000, 4096)]⟩)] } 7).2 =
      [(0x406000, 4096), (0x404000, 8192), (0x400000, 16384)] := by
  decide

/-- C6 counterexample: with the kernel heap freshly initialised at
`init(0x200000, 0x200000)`, the first task stack created by the
scheduler (`Task::new` → `vec![0u8; STACK_SIZE]` → global allocator)
lives at `0x200010`, which is NOT in the program region
`[0x400000, 0x1000000)` — refuting the claim that task stacks are
allocated from the program region. -/
theorem claim_C6_counterexample :
    (Sched.task_new_stack (Heap.initHeap 0x200000 0x200000)).2 = some 0x200010 ∧
    ¬ (Prog.PROGRAM_REGION_START ≤ 0x200010 ∧
        0x200010 < Prog.PROGRAM_REGION_END) := by
  decide

/-- C6 amended: every task stack is allocated by `vec![0u8; STACK_SIZE]`
from the kernel heap via the global allocator, so the returned stack
pointer lies inside `[heap_start, heap_end)`; since the kernel heap ends
at 0x400000, the stack is never inside the program region
`[0x400000, 0x1000000)`. -/
theorem claim_C6_stack_from_kernel_heap :
    ∀ (s : Heap.HeapState) (p : Nat),
      (∀ b ∈ s.free, s.heap_start ≤ b.1 ∧ b.1 + b.2 ≤ s.heap_end ∧ b.1 % 8 = 0) →
      (Sched.task_new_stack s).2 = some p →
      s.heap_start ≤ p ∧ p < s.heap_end ∧
      (s.heap_end ≤ Prog.PROGRAM_REGION_START →
        ¬ (Prog.PROGRAM_REGION_START ≤ p ∧ p < Prog.PROGRAM_REGION_END)) := by
  intro s p hb hp
  obtain ⟨b, hmem, hfit, hpv⟩ := Heap.allocate_ptr s Sched.STACK_SIZE p hp
  obtain ⟨h1, h2, h3⟩ := hb b hmem
  have htot : (16400 : Nat) ≤ b.2 := by
    have : Heap.total_size Sched.STACK_SIZE = 16400 := by decide
    omega
  have hpe : p = b.1 + 16 := by
    rw [hpv]
    show Heap.align_up (b.1 + Heap.HEADER_SIZE) Heap.ALIGNMENT = _
    unfold Heap.HEADER_SIZE Heap.ALIGNMENT
    rw [Heap.align_up_eq_self (by omega)]
  refine ⟨by omega, by omega, ?_⟩
  intro hend hcontra
  unfold Prog.PROGRAM_REGION_START at hend hcontra
  omega

/-- Witness for C6's amended theorem: applied at the freshly initialised
kernel heap, where the stack lands at 0x200010 inside
`[0x200000, 0x400000)`. -/
theorem claim_C6_stack_from_kernel_heap_witness :
    (0x200000 : Nat) ≤ 0x200010 ∧ (0x200010 : Nat) < 0x400000 ∧
      ((0x400000 : Nat) ≤ Prog.PROGRAM_REGION_START →
        ¬ (Prog.PROGRAM_REGION_START ≤ 0x200010 ∧
            0x200010 < Prog.PROGRAM_REGION_END)) :=
  claim_C6_stack_from_kernel_heap (Heap.initHeap 0x200000 0x200000) 0x200010
    (by decide) (by decide)

/-- C10: each ring holds one slot fewer than its buffer count.  For RX:
`rx_pending ≤ 15` always; when exactly 15 buffers have been published
without a release the next `get_rx_buffer_for_write()` returns `None`
and increments `rx_dropped` (and conversely a full-ring `None` happens
only at 15 pending); publishing 15 buffers into an empty ring reaches
that point; the guarded ISR receive path never exceeds 15 pending.  For
TX: `get_tx_buffer()` returns `None` exactly at `tx_pending = 7`. -/
theorem claim_C10_ring_capacity :
    ∀ p : Pool.PacketPool, Pool.WF p →
      (Pool.rx_pending p ≤ Pool.RX_BUFFER_COUNT - 1 ∧
        Pool.tx_pending p ≤ Pool.TX_BUFFER_COUNT - 1) ∧
      (Pool.rx_pending p = Pool.RX_BUFFER_COUNT - 1 ↔
        ((Pool.get_rx_buffer_for_write p).1 = none ∧
          (Pool.get_rx_buffer_for_write p).2.rx_dropped = p.rx_dropped + 1)) ∧
      (p.rx_tail = p.rx_head →
        Pool.rx_pending (Pool.rx_buffer_ready^[15] p) = 15 ∧
        (Pool.get_rx_buffer_for_write (Pool.rx_buffer_ready^[15] p)).1 = none ∧
        (Pool.get_rx_buffer_for_write (Pool.rx_buffer_ready^[15] p)).2.rx_dropped
          = p.rx_dropped + 1) ∧
      (Pool.rx_pending (Pool.isr_receive p) ≤ Pool.RX_BUFFER_COUNT - 1) ∧
      (Pool.tx_pending p = Pool.TX_BUFFER_COUNT - 1 ↔ Pool.get_tx_buffer p = none) := by
  intro p hwf
  obtain ⟨h1, h2, h3, h4⟩ := hwf
  simp only [Pool.RX_BUFFER_COUNT] at h1 h2
  simp only [Pool.TX_BUFFER_COUNT] at h3 h4
  refine ⟨⟨?_, ?_⟩, ⟨?_, ?_⟩, ?_, ?_, ⟨?_, ?_⟩⟩
  · unfold Pool.rx_pending Pool.RX_BUFFER_COUNT; omega
  · unfold Pool.tx_pending Pool.TX_BUFFER_COUNT; omega
  · intro hfull
    unfold Pool.rx_pending Pool.RX_BUFFER_COUNT at hfull
    rw [Pool.get_rx_full (by unfold Pool.RX_BUFFER_COUNT; omega)]
    exact ⟨rfl, rfl⟩
  · intro hnone
    unfold Pool.rx_pending Pool.RX_BUFFER_COUNT
    by_cases hc : (p.rx_head + 1) % Pool.RX_BUFFER_COUNT = p.rx_tail
    · unfold Pool.RX_BUFFER_COUNT at hc; omega
    · rw [Pool.get_rx_not_full hc] at hnone
      simp at hnone
  · intro hempty
    have hhead := Pool.rx_buffer_ready_iter 15 p (by unfold Pool.RX_BUFFER_COUNT; omega)
    have htail := Pool.rx_buffer_ready_tail 15 p
    have hdrop := Pool.rx_buffer_ready_dropped 15 p
    have hcond : ((Pool.rx_buffer_ready^[15] p).rx_head + 1) % Pool.RX_BUFFER_COUNT
        = (Pool.rx_buffer_ready^[15] p).rx_tail := by
      rw [hhead, htail]
      unfold Pool.RX_BUFFER_COUNT
      omega
    refine ⟨?_, ?_, ?_⟩
    · unfold Pool.rx_pending
      rw [hhead, htail]
      unfold Pool.RX_BUFFER_COUNT
      omega
    · rw [Pool.get_rx_full hcond]
    · rw [Pool.get_rx_full hcond]
      show (Pool.rx_buffer_ready^[15] p).rx_dropped + 1 = _
      rw [hdrop]
  · by_cases hc : (p.rx_head + 1) % Pool.RX_BUFFER_COUNT = p.rx_tail
    · unfold Pool.isr_receive
      rw [Pool.get_rx_full hc]
      unfold Pool.rx_pending Pool.RX_BUFFER_COUNT
      omega
    · unfold Pool.isr_receive
      rw [Pool.get_rx_not_full hc]
      unfold Pool.RX_BUFFER_COUNT at hc
      unfold Pool.rx_buffer_ready Pool.rx_pending Pool.RX_BUFFER_COUNT
      omega
  · intro hfull
    unfold Pool.tx_pending Pool.TX_BUFFER_COUNT at hfull
    exact Pool.get_tx_full (by unfold Pool.TX_BUFFER_COUNT; omega)
  · intro hnone
    unfold Pool.tx_pending Pool.TX_BUFFER_COUNT
    by_cases hc : (p.tx_head + 1) % Pool.TX_BUFFER_COUNT = p.tx_tail
    · unfold Pool.TX_BUFFER_COUNT at hc; omega
    · rw [Pool.get_tx_not_full hc] at hnone
      simp at hnone

/-- C1 (code bug): ESTABLISHED client (iss 12345 from `connect` at tick
0, SYN+ACK seq 5000 processed at tick 5, so snd_una = snd_nxt = 12346,
rcv_nxt = 5001, rto = 20, retransmit timer armed for tick 20);
`send(64 bytes)` leads the engine (tick 6) to emit exactly one PSH|ACK
segment `seq 12346`, payload = the 64 bytes, and advance snd_nxt to
12410.  No ACK arrives, so at tick 20 the RTO fires: retransmit_count
becomes 1, ssthresh = max(cwnd/2, 2·MSS) = 2920, cwnd = MSS = 1460 and
the RTO doubles to 40 — all as the claim says — BUT the re-emitted
segment is NOT identical: `retransmit` peeks the unacked bytes yet
stamps them with the current `snd_nxt` (12410) instead of the original
sequence number 12346 (flags and payload do match; `send_pending_data`
even emits a second copy at 12410 in the same tick).  After 5 failed
retransmits (ticks 60, 140, 300, 620) the next expiry (tick 1260)
resets the connection, as claimed. -/
theorem claim_C1_retransmit_wrong_seq :
    let c1 : Tcp.Tcb := (Tcp.connect 0 Tcp.socket_new).1
    let payload : List Nat := List.replicate 64 7
    let c2 := (Tcp.process_segment 5 c1
      { seq := 5000, ack := 12346, flags := 18, window := 65535, payload := [] }).1
    let c3 := (Tcp.tcp_send c2 payload).2
    let r4 := Tcp.process_timers_conn 6 c3
    let r5 := Tcp.process_timers_conn 20 r4.1
    c2.state = Tcp.TcpState.Established ∧
    (Tcp.tcp_send c2 payload).1 = 64 ∧
    r4.2 = [{ seq := 12346, ack := 5001, flags := 24, window := 2048,
              payload := payload }] ∧
    r5.1.retransmit_count = 1 ∧
    r5.1.rto = 40 ∧
    r5.1.ssthresh = 2920 ∧
    r5.1.cwnd = 1460 ∧
    r5.2.map Tcp.Segment.flags = [24, 24] ∧
    r5.2.map Tcp.Segment.payload = [payload, payload] ∧
    r5.2.map Tcp.Segment.seq = [12410, 12410] ∧
    (12410 : Nat) ≠ 12346 ∧
    (Tcp.process_timers_conn 1260
      (Tcp.process_timers_conn 620
        (Tcp.process_timers_conn 300
          (Tcp.process_timers_conn 140
            (Tcp.process_timers_conn 60 r5.1).1).1).1).1).1 = Tcp.TcbNew := by
  decide

/-- C4: after `connect()` (which sends a SYN with some iss and sets
snd_nxt = iss+1) processes a SYN+ACK with `ack_num == iss+1` in
SynSent: the connection is Established with `snd_una == iss+1` and
`rcv_nxt == irs+1` (irs = the injected segment's seq), and an ACK with
`seq == iss+1`, `ack == irs+1` is emitted.  Proved for every connect
tick, processing tick, remote ISN, and window. -/
theorem claim_C4_handshake_client (now0 now1 segSeq window : Nat) :
    let c1 : Tcp.Tcb := (Tcp.connect now0 Tcp.socket_new).1
    let r := Tcp.process_segment now1 c1
      { seq := segSeq, ack := w32 (c1.iss + 1), flags := 18, window := window,
        payload := [] }
    r.1.state = Tcp.TcpState.Established ∧
    r.1.snd_una = w32 (r.1.iss + 1) ∧
    r.1.rcv_nxt = w32 (segSeq + 1) ∧
    r.1.irs = segSeq ∧
    r.2 = [{ seq := w32 (r.1.iss + 1), ack := w32 (segSeq + 1),
             flags := Tcp.FLAG_ACK, window := Tcp.RX_BUFFER_SIZE,
             payload := [] }] := by
  intro c1 r
  have h : Nat.land 18 4 = 0 := by decide
  simp only [c1, r]
  simp [Tcp.connect, Tcp.socket_new, Tcp.TcbNew, Tcp.process_segment,
    Tcp.is_rst, Tcp.is_syn, Tcp.is_ack, Tcp.mk_segment, Tcp.update_rtt,
    Tcp.FLAG_ACK, Tcp.FLAG_SYN, Tcp.FLAG_RST, Tcp.RX_BUFFER_SIZE, h]

/-- C7 counterexample: an established connection (rcv_nxt = 1000) is
handed a below-window data segment (seq 500, 3 payload bytes, plain ACK
flag, with an ack number that matches neither new data nor the last
duplicate).  The engine drops it with NO segment emitted — refuting the
claim that below-window segments are ACKed; the source comment even
says `// else: old segment, ignore`. -/
theorem claim_C7_counterexample :
    Tcp.process_segment 0
        { Tcp.TcbNew with
          in_use := true
          state := Tcp.TcpState.Established
          rcv_nxt := 1000
          snd_una := 2000
          snd_nxt := 2000
          last_ack := 999 }
        { seq := 500, ack := 2000, flags := 16, window := 65535
          payload := [1, 2, 3] } =
      ({ Tcp.TcbNew with
          in_use := true
          state := Tcp.TcpState.Established
          rcv_nxt := 1000
          snd_una := 2000
          snd_nxt := 2000
          last_ack := 999 },
        []) ∧
    seq_after 1000 500 := by
  decide

/-- C7 amended: for every non-empty data payload arriving on an
established connection, `process_data` (a) delivers it to the receive
buffer and ACKs exactly when `seg_seq == rcv_nxt`, draining the
out-of-order buffer until no staged segment matches the advanced
`rcv_nxt`; (b) stages in-window future segments (`seg_seq` after
`rcv_nxt`) in the 4-slot OOO buffer (when a slot is free) and sends a
duplicate ACK, leaving the receive buffer untouched; and (c) silently
drops below-window segments WITHOUT sending any ACK (amending the
claim, which asserted an ACK is still sent). -/
theorem claim_C7_payload_delivery (c : Tcp.Tcb) (segSeq : Nat)
    (payload : List Nat) (hp : payload ≠ [])
    (_hlen : c.ooo_segments.length = Tcp.OOO_BUFFER_SIZE) :
    (segSeq = c.rcv_nxt →
      (∃ extra, (Tcp.process_data c segSeq payload).1.rx_buffer =
        c.rx_buffer ++
          payload.take (Tcp.RX_BUFFER_SIZE - c.rx_buffer.length) ++ extra) ∧
      (Tcp.process_data c segSeq payload).2 =
        [Tcp.mk_segment (Tcp.process_data c segSeq payload).1 Tcp.FLAG_ACK []] ∧
      (∀ sg ∈ (Tcp.process_data c segSeq payload).1.ooo_segments,
        ∀ v ∈ sg, v.1 ≠ (Tcp.process_data c segSeq payload).1.rcv_nxt)) ∧
    (seq_after segSeq c.rcv_nxt →
      (Tcp.process_data c segSeq payload).1.rx_buffer = c.rx_buffer ∧
      (Tcp.process_data c segSeq payload).1.rcv_nxt = c.rcv_nxt ∧
      (Tcp.process_data c segSeq payload).2 =
        [Tcp.mk_segment (Tcp.process_data c segSeq payload).1 Tcp.FLAG_ACK []] ∧
      ((∃ sl ∈ c.ooo_segments, sl = none) →
        some (segSeq, payload.take Tcp.OOO_DATA_SIZE) ∈
          (Tcp.process_data c segSeq payload).1.ooo_segments)) ∧
    (segSeq ≠ c.rcv_nxt → ¬ seq_after segSeq c.rcv_nxt →
      Tcp.process_data c segSeq payload = (c, [])) := by
  have hpe : ¬ (payload.isEmpty = true) := by
    simpa using hp
  refine ⟨?_, ?_, ?_⟩
  · intro hseq
    unfold Tcp.process_data
    rw [if_neg hpe, if_pos hseq]
    refine ⟨?_, rfl, Tcp.deliver_ooo_segments_drained _⟩
    obtain ⟨extra, he⟩ := Tcp.deliver_ooo_segments_rx
      (Tcp.update_rcv_wnd
        { c with
          rx_buffer := c.rx_buffer ++
            payload.take (min payload.length
              (Tcp.RX_BUFFER_SIZE - c.rx_buffer.length))
          rcv_nxt := w32 (c.rcv_nxt +
            min payload.length (Tcp.RX_BUFFER_SIZE - c.rx_buffer.length))
          has_data := true })
    refine ⟨extra, ?_⟩
    rw [he]
    show (c.rx_buffer ++
        payload.take (min payload.length
          (Tcp.RX_BUFFER_SIZE - c.rx_buffer.length))) ++ extra = _
    rw [take_min_length, List.append_assoc]
  · intro hsa
    have hne : segSeq ≠ c.rcv_nxt := by
      intro he
      rw [he] at hsa
      exact seq_after_irrefl _ hsa
    unfold Tcp.process_data
    rw [if_neg hpe, if_neg hne, if_pos hsa]
    unfold Tcp.buffer_ooo_segment
    rcases hins : Tcp.ooo_insert c.ooo_segments
        (segSeq, payload.take Tcp.OOO_DATA_SIZE) with _ | l2
    · refine ⟨rfl, rfl, rfl, fun hslot => ?_⟩
      obtain ⟨l2, hl2⟩ := Tcp.ooo_insert_of_empty_slot _ _ hslot
      rw [hins] at hl2
      cases hl2
    · exact ⟨rfl, rfl, rfl, fun _ => Tcp.ooo_insert_mem _ _ _ hins⟩
  · intro hne hnafter
    unfold Tcp.process_data
    rw [if_neg hpe, if_neg hne, if_neg hnafter]

/-- Witness for C7's amended theorem: a below-window byte on a fresh
TCB with `rcv_nxt = 1000` is dropped with nothing emitted. -/
theorem claim_C7_payload_delivery_witness :
    Tcp.process_data { Tcp.TcbNew with rcv_nxt := 1000 } 500 [1] =
      ({ Tcp.TcbNew with rcv_nxt := 1000 }, []) :=
  (claim_C7_payload_delivery { Tcp.TcbNew with rcv_nxt := 1000 } 500 [1]
    (by decide) (by decide)).2.2 (by decide) (by decide)

/-- C8 counterexample: `net_status(4)` — an out-of-range handle for the
4-slot TCB table — returns 2 (the closed/closing code), not −1 as the
claim says, because `get_state` folds invalid handles into `Closed`. -/
theorem claim_C8_counterexample :
    Tcp.api_net_status [Tcp.TcbNew, Tcp.TcbNew, Tcp.TcbNew, Tcp.TcbNew] 4 = 2 ∧
    (2 : Int) ≠ -1 := by
  decide

/-- C8 amended: `net_status(s)` returns −1 exactly for negative handles;
for a non-negative handle it reports 1 iff the slot is Established, 0
iff it is SynSent/SynReceived/Listen, and 2 otherwise — in particular
out-of-range handles and not-in-use slots fold into `Closed` and report
2, not −1. -/
theorem claim_C8_net_status (conns : List Tcp.Tcb) (sock : Int) :
    (Tcp.api_net_status conns sock = -1 ↔ sock < 0) ∧
    (0 ≤ sock →
      ((Tcp.api_net_status conns sock = 1 ↔
          Tcp.get_state conns sock.toNat = Tcp.TcpState.Established) ∧
       (Tcp.api_net_status conns sock = 0 ↔
          (Tcp.get_state conns sock.toNat = Tcp.TcpState.SynSent ∨
           Tcp.get_state conns sock.toNat = Tcp.TcpState.SynReceived ∨
           Tcp.get_state conns sock.toNat = Tcp.TcpState.Listen)) ∧
       ((Tcp.MAX_CONNECTIONS : Int) ≤ sock →
          Tcp.api_net_status conns sock = 2) ∧
       (∀ ct, conns.get? sock.toNat = some ct → ct.in_use = false →
          Tcp.api_net_status conns sock = 2))) := by
  by_cases hneg : sock < 0
  · refine ⟨⟨fun _ => hneg, fun _ => ?_⟩, fun h0 => absurd hneg (by omega)⟩
    unfold Tcp.api_net_status
    rw [if_pos hneg]
  · refine ⟨⟨fun h => ?_, fun h => absurd h hneg⟩,
      fun _ => ⟨?_, ?_, ?_, ?_⟩⟩
    · unfold Tcp.api_net_status at h
      rw [if_neg hneg] at h
      rcases hst : Tcp.get_state conns sock.toNat <;> rw [hst] at h <;>
        simp at h
    · unfold Tcp.api_net_status
      rw [if_neg hneg]
      rcases hst : Tcp.get_state conns sock.toNat <;> simp
    · unfold Tcp.api_net_status
      rw [if_neg hneg]
      rcases hst : Tcp.get_state conns sock.toNat <;> simp
    · intro hmax
      have hm : Tcp.MAX_CONNECTIONS ≤ sock.toNat := by
        unfold Tcp.MAX_CONNECTIONS at *
        omega
      unfold Tcp.api_net_status Tcp.get_state
      rw [if_neg hneg, if_pos hm]
    · intro ct hget hiu
      unfold Tcp.api_net_status Tcp.get_state
      rw [if_neg hneg]
      by_cases hm : Tcp.MAX_CONNECTIONS ≤ sock.toNat
      · rw [if_pos hm]
      · rw [if_neg hm, hget]
        simp [hiu]

/-- Witness for C8's amended theorem: the out-of-range conjunct applied
at handle 4 of a 4-slot table of fresh TCBs. -/
theorem claim_C8_net_status_witness :
    Tcp.api_net_status [Tcp.TcbNew, Tcp.TcbNew, Tcp.TcbNew, Tcp.TcbNew] 4 = 2 :=
  ((claim_C8_net_status [Tcp.TcbNew, Tcp.TcbNew, Tcp.TcbNew, Tcp.TcbNew] 4).2
    (by decide)).2.2.1 (by decide)

/-- C9 counterexample: a CloseWait connection holding one still-unread
byte, polled with a zero-length caller buffer, returns −1 (EOF) even
though the receive buffer is NOT empty — refuting "returns −1 only when
the receive buffer is empty and the remote has closed" as literally
stated. -/
theorem claim_C9_counterexample :
    (Tcp.recv
        { Tcp.TcbNew with
          in_use := true
          state := Tcp.TcpState.CloseWait
          remote_closed := true
          rx_buffer := [42] } 0).1 = -1 ∧
    ({ Tcp.TcbNew with
        in_use := true
        state := Tcp.TcpState.CloseWait
        remote_closed := true
        rx_buffer := [42] } : Tcp.Tcb).rx_buffer ≠ [] := by
  decide

/-- C9 amended: for a live connection (valid handle, state ≠ Closed) and
a non-empty caller buffer, `recv` returns the first `min(bufLen, |rx|)`
buffered bytes in order (removing them); after a remote FIN
(`remote_closed`), it returns −1 (EOF) exactly when the receive buffer
is empty — so data buffered before the FIN is never lost; and it
returns 0 exactly when the buffer is empty and the remote has NOT
closed. -/
theorem claim_C9_recv_eof (c : Tcp.Tcb) (bufLen : Nat)
    (hu : c.in_use = true) (hs : c.state ≠ Tcp.TcpState.Closed)
    (hb : 0 < bufLen) :
    ((Tcp.recv c bufLen).2.1 = c.rx_buffer.take bufLen ∧
     (Tcp.recv c bufLen).2.2.rx_buffer = c.rx_buffer.drop bufLen) ∧
    (c.remote_closed = true →
      ((Tcp.recv c bufLen).1 = -1 ↔ c.rx_buffer = [])) ∧
    ((Tcp.recv c bufLen).1 = 0 ↔
      (c.rx_buffer = [] ∧ c.remote_closed = false)) := by
  unfold Tcp.recv
  rw [if_neg (by simp [hu]), if_neg hs]
  by_cases he : c.rx_buffer = []
  · rw [he]
    cases hrc : c.remote_closed <;> simp [Tcp.update_rcv_wnd]
  · have hn : 0 < min bufLen c.rx_buffer.length := by
      have := List.length_pos.mpr he
      omega
    rw [if_pos hn]
    have htake : c.rx_buffer.take (min bufLen c.rx_buffer.length) =
        c.rx_buffer.take bufLen := by
      rw [Nat.min_comm, take_min_length]
    have hdrop : c.rx_buffer.drop (min bufLen c.rx_buffer.length) =
        c.rx_buffer.drop bufLen := by
      rcases Nat.le_total bufLen c.rx_buffer.length with h | h
      · rw [Nat.min_eq_left h]
      · rw [Nat.min_eq_right h, List.drop_length,
          List.drop_eq_nil_of_le h]
    refine ⟨⟨htake, hdrop⟩, fun _ => ?_, ?_⟩
    · simp [he]
      omega
    · simp [he]
      omega

/-- Witness for C9's amended theorem: one buffered byte, CloseWait after
remote FIN, caller buffer of one byte: the byte is returned. -/
theorem claim_C9_recv_eof_witness :
    (Tcp.recv
        { Tcp.TcbNew with
          in_use := true
          state := Tcp.TcpState.CloseWait
          remote_closed := true
          rx_buffer := [42] } 1).2.1 =
      ({ Tcp.TcbNew with
          in_use := true
          state := Tcp.TcpState.CloseWait
          remote_closed := true
          rx_buffer := [42] } : Tcp.Tcb).rx_buffer.take 1 :=
  (claim_C9_recv_eof
    { Tcp.TcbNew with
      in_use := true
      state := Tcp.TcpState.CloseWait
      remote_closed := true
      rx_buffer := [42] } 1
    (by decide) (by decide) (by decide)).1.1

/-- Witness for C10: the bounds evaluated at the freshly initialised
(empty) pool. -/
theorem claim_C10_ring_capacity_witness :
    Pool.rx_pending (Pool.rx_buffer_ready^[15] Pool.poolInit) = 15 ∧
    (Pool.get_rx_buffer_for_write (Pool.rx_buffer_ready^[15] Pool.poolInit)).1
      = none :=
  ⟨((claim_C10_ring_capacity Pool.poolInit (by decide)).2.2.1 rfl).1,
   ((claim_C10_ring_capacity Pool.poolInit (by decide)).2.2.1 rfl).2.1⟩

end RalphOS
